import Mathlib

/-!
# Verification of the `tix` ticket synchronization engine

This file shallowly embeds the core of the `tix` CLI's sync subsystem
(`src/commands/sync.ts` and `src/lib/ticket-store.ts`) in Lean 4 and proves
properties of the embedded definitions.

Modelling conventions:
* JavaScript strings are Lean `String`s (worked on as `List Char`); the
  UTF-16 surrogate corner cases of JS strings are outside the model.
* JSON values are the inductive `Json` below.  Numbers keep their source
  lexeme (the claims under study never depend on float arithmetic).
* `JSON.parse` is modelled by an executable fuelled recursive-descent
  parser `jsonParse`; `JSON.stringify(x, null, 2)` by `renderPretty`;
  `JSON.stringify(x)` by `stringifyCompact`.
* The file system visible to the ticket store is the content of the single
  snapshot file `_summary.json`, modelled as `Option String`
  (`none` = file absent).
* `regex` uses in the source (`match`, `split`, `replace`) are modelled by
  direct executable string functions, each documented at its definition.
-/

namespace Tix

/-- Left brace character (spelled via code point to keep string literals
brace-free). -/
def lbrace : Char := Char.ofNat 123

/-- Right brace character. -/
def rbrace : Char := Char.ofNat 125

/-- Apostrophe character (used by the completed-status token for
"won&#39;t do"). -/
def apos : Char := Char.ofNat 39

/-- Backtick character. -/
def btick : Char := Char.ofNat 96

/-- JS `\s` whitespace class, restricted to the ASCII whitespace the data
at hand can contain (space, tab, line feed, carriage return, form feed,
vertical tab). -/
def isJsWs (c : Char) : Bool :=
  c = ' ' || c = '\t' || c = '\n' || c = '\r' || c = Char.ofNat 12 || c = Char.ofNat 11

/-- Substring containment on character lists (`[] ` is an infix of
everything, matching JS `"".includes("")`). -/
def listInfix (sub : List Char) : List Char → Bool
  | [] => sub.isPrefixOf []
  | c :: t => sub.isPrefixOf (c :: t) || listInfix sub t

/-- JS `String.prototype.includes`: substring containment. -/
def jsIncludes (s sub : String) : Bool :=
  listInfix sub.data s.data

/-- JS `String.prototype.trim` (model: trim `isJsWs` characters from both
ends). -/
def jsTrim (s : String) : String :=
  ⟨(s.data.dropWhile isJsWs).reverse.dropWhile isJsWs |>.reverse⟩

/-- JS `String.prototype.toLowerCase` (character-wise lowering). -/
def jsToLower (s : String) : String :=
  ⟨s.data.map Char.toLower⟩

/-- Key normalization used by `findField`:
`candidate.toLowerCase().replace(/[_\s]/g, '')`. -/
def normKey (s : String) : String :=
  ⟨(s.data.map Char.toLower).filter (fun c => !(c = '_' || isJsWs c))⟩

/-- JSON values.  `num` keeps the source lexeme: the sync engine never
computes with numbers, it only converts them back to strings. -/
inductive Json where
  | null : Json
  | bool (b : Bool) : Json
  | num (lexeme : String) : Json
  | str (s : String) : Json
  | arr (elems : List Json) : Json
  | obj (fields : List (String × Json)) : Json
  deriving Repr

/-- JS object construction from a key/value assignment sequence: first
occurrence fixes the position of a key, the last assignment fixes its
value.  Applied to parsed object members and markdown-table rows. -/
def jsObjAssign (fs : List (String × Json)) : List (String × Json) :=
  fs.foldl
    (fun acc kv =>
      if acc.any (fun p => p.1 == kv.1) then
        acc.map (fun p => if p.1 == kv.1 then (p.1, kv.2) else p)
      else acc ++ [kv])
    []

/-- JS `Object.entries` on an arbitrary value, as used by `rowsToTickets`
(`for (const [, val] of Object.entries(row))`) and `findField`
(`Object.keys(row)`): objects list their properties, arrays and strings
list index/element pairs, numbers and booleans have no enumerable
properties.  For `null`, JS `Object.keys`/`Object.entries` throw a
`TypeError`; that error path does not fit a total function, so it is
modelled separately by `rowsToTicketsThrows` at the call sites whose
surrounding `try` blocks observe it. -/
def rowEntries : Json → List (String × Json)
  | Json.obj fs => jsObjAssign fs
  | Json.arr xs => xs.enum.map (fun p => (toString p.1, p.2))
  | Json.str s => s.data.enum.map (fun p => (toString p.1, Json.str ⟨[p.2]⟩))
  | _ => []

/-- JS property access `v.name` (used for `parsed.results` and
`wrapper.result`): only object properties are found. -/
def jsGet (v : Json) (key : String) : Option Json :=
  (rowEntries v).lookup key

/-- JS truthiness of a parsed JSON value (`if (parsed && ...)`). -/
def jsonTruthy : Json → Bool
  | Json.null => false
  | Json.bool b => b
  | Json.num lx => !(lx = "0" || lx = "-0" || lx = "0.0")
  | Json.str s => !(s = "")
  | Json.arr _ => true
  | Json.obj _ => true

/-- Hexadecimal digit character (lowercase), for `\u00xx` escapes. -/
def hexDig (n : Nat) : Char :=
  if n < 10 then Char.ofNat (48 + n) else Char.ofNat (87 + n)

/-- `JSON.stringify` escaping of one string character: `"` and `\` get a
backslash, the named control escapes are used where they exist, any other
control character becomes `\u00xx`, and everything else passes through. -/
def escapeChar (c : Char) : List Char :=
  if c = '"' then ['\\', '"']
  else if c = '\\' then ['\\', '\\']
  else if c = Char.ofNat 8 then ['\\', 'b']
  else if c = '\t' then ['\\', 't']
  else if c = '\n' then ['\\', 'n']
  else if c = Char.ofNat 12 then ['\\', 'f']
  else if c = '\r' then ['\\', 'r']
  else if c.toNat < 32 then ['\\', 'u', '0', '0', hexDig (c.toNat / 16), hexDig (c.toNat % 16)]
  else [c]

/-- `JSON.stringify` rendering of a string, quotes included. -/
def escapeJsonString (s : String) : List Char :=
  '"' :: (s.data.map escapeChar).flatten ++ ['"']

/-- Element stringification used by JS `Array.prototype.join`:
`null`/`undefined` become empty, arrays join recursively with `,`, plain
objects print `[object Object]`. -/
def jsJoinElem : Json → String
  | Json.null => ""
  | Json.bool true => "true"
  | Json.bool false => "false"
  | Json.num lx => lx
  | Json.str s => s
  | Json.arr xs =>
      String.intercalate "," (xs.attach.map (fun x => jsJoinElem x.1))
  | Json.obj _ => "[object Object]"
termination_by j => sizeOf j
decreasing_by
  simp_wf
  have := List.sizeOf_lt_of_mem x.2
  omega

/-- One-argument `JSON.stringify` (compact form), reached by `findField`
for boolean- and object-valued fields. -/
def stringifyCompact : Json → String
  | Json.null => "null"
  | Json.bool true => "true"
  | Json.bool false => "false"
  | Json.num lx => lx
  | Json.str s => ⟨escapeJsonString s⟩
  | Json.arr xs =>
      "[" ++ String.intercalate "," (xs.attach.map (fun x => stringifyCompact x.1)) ++ "]"
  | Json.obj fs =>
      ⟨[lbrace]⟩ ++
        String.intercalate ","
          (fs.attach.map (fun p =>
            (⟨escapeJsonString p.1.1⟩ : String) ++ ":" ++ stringifyCompact p.1.2)) ++
        ⟨[rbrace]⟩
termination_by j => sizeOf j
decreasing_by
  · simp_wf
    have := List.sizeOf_lt_of_mem x.2
    omega
  · rcases p with ⟨⟨k, v⟩, hm⟩
    simp_wf
    have := List.sizeOf_lt_of_mem hm
    simp only [Prod.mk.sizeOf_spec] at this
    omega

/-- `findField`'s conversion of a matched field value
(`src/commands/sync.ts:374-379`): `null` yields no result, strings pass
through, numbers go through `String(...)` (modelled by the kept lexeme),
arrays are joined with `", "`, anything else is `JSON.stringify`-ed. -/
def fieldValToString : Json → Option String
  | Json.null => none
  | Json.str s => some s
  | Json.num lx => some lx
  | Json.arr xs => some (String.intercalate ", " (xs.map jsJoinElem))
  | v => some (stringifyCompact v)

/-- `findField` (`src/commands/sync.ts:368-384`): walk the synonym
candidates in order; for the first candidate whose normalization matches a
key of the row (keys in JS property order), convert that key's value — a
`null` value ends the whole search with no result. -/
def findField (row : Json) : List String → Option String
  | [] => none
  | c :: cs =>
      match (rowEntries row).find? (fun kv => normKey kv.1 == normKey c) with
      | some kv => fieldValToString kv.2
      | none => findField row cs

/-- The completed-status token `"won't do"` (apostrophe spelled via its
code point). -/
def wontDo : String := "won" ++ ⟨[apos]⟩ ++ "t do"

/-- `COMPLETED_STATUSES` (`src/commands/sync.ts:256-258`). -/
def COMPLETED_STATUSES : List String :=
  ["done", "complete", "completed", "shipped", "released", "closed",
   wontDo, "wont do", "merged"]

/-- Canonical ticket record (`TicketSummary` in `src/types.ts`). -/
structure TicketSummary where
  id : String
  ticketNumber : String
  title : String
  status : String
  priority : String
  lastUpdated : String
  url : String
  githubLinks : List String
  deriving Repr, DecidableEq

mutual

/-- JS `split(/[\s,]+/)`: runs of whitespace/comma separate tokens; a
leading or trailing run contributes an empty token, like the JS split.
`jsSplitGo` accumulates the current token. -/
def jsSplitGo (cur : List Char) : List Char → List (List Char)
  | [] => [cur.reverse]
  | c :: rest =>
      if isJsWs c || c = ',' then cur.reverse :: jsSplitSkip rest
      else jsSplitGo (c :: cur) rest

/-- Inside a separator run: drop further separators, then resume. -/
def jsSplitSkip : List Char → List (List Char)
  | [] => [[]]
  | c :: rest =>
      if isJsWs c || c = ',' then jsSplitSkip rest
      else jsSplitGo [c] rest

end

/-- JS `s.split(/[\s,]+/)` as strings. -/
def jsSplitWsComma (s : String) : List String :=
  (jsSplitGo [] s.data).map (fun cs => ⟨cs⟩)

/-- The GitHub-link harvest of `rowsToTickets`
(`src/commands/sync.ts:340-351`): every entry of the row is scanned;
string values containing `github.com` are split on whitespace/commas and
the link-bearing tokens kept; array values contribute their link-bearing
string items unsplit. -/
def harvestGithubLinks (row : Json) : List String :=
  (rowEntries row).foldl
    (fun acc kv =>
      match kv.2 with
      | Json.str s =>
          if jsIncludes s "github.com" then
            acc ++ (jsSplitWsComma s).filter (fun t => jsIncludes t "github.com")
          else acc
      | Json.arr items =>
          acc ++ items.filterMap (fun it =>
            match it with
            | Json.str s => if jsIncludes s "github.com" then some s else none
            | _ => none)
      | _ => acc)
    []

/-- The synonym-matched status of a row
(`findField(row, ['status', 'state']) || ''`). -/
def rowStatus (row : Json) : String :=
  (findField row ["status", "state"]).getD ""

/-- Whether a row is dropped by the completed-status filter
(`COMPLETED_STATUSES.has(status.toLowerCase())`). -/
def isCompletedRow (row : Json) : Bool :=
  COMPLETED_STATUSES.contains (jsToLower (rowStatus row))

/-- The record built from one surviving row — the loop body of
`rowsToTickets` (`src/commands/sync.ts:327-362`). -/
def rowToTicket (row : Json) : TicketSummary :=
  let title := (findField row ["title", "name", "task", "ticket"]).getD ""
  let status := rowStatus row
  let id := (findField row ["id", "page_id", "pageid", "notion_id"]).getD ""
  let rawTicketNumber :=
    (findField row ["new id", "new_id", "newid", "ticket_number", "ticketnumber",
                    "ticket id", "ticket_id"]).getD ""
  let ticketNumber :=
    if rawTicketNumber ≠ "" && !jsIncludes rawTicketNumber "-" then
      "TN-" ++ rawTicketNumber
    else rawTicketNumber
  let priority := (findField row ["priority", "urgency"]).getD ""
  let lastUpdated :=
    (findField row ["last updated", "last_updated", "lastupdated", "updated",
                    "last edited", "last_edited_time"]).getD ""
  let url := (findField row ["url", "link", "notion_url"]).getD ""
  ⟨id, ticketNumber, title, status, priority, lastUpdated, url,
   harvestGithubLinks row⟩

/-- `rowsToTickets` (`src/commands/sync.ts:324-366`): iterate the rows in
order, skip a row whose synonym-matched status is a completed status, and
push one record per surviving row. -/
def rowsToTickets : List Json → List TicketSummary
  | [] => []
  | row :: rest =>
      if isCompletedRow row then rowsToTickets rest
      else rowToTicket row :: rowsToTickets rest

/-- Whether the JS `rowsToTickets(rows)` call throws instead of
returning: the first thing done with every row is
`findField(row, [...])`, whose `Object.keys(row)` raises a `TypeError`
exactly when the row is `null` (all other JSON values are object-coerced
without error).  A row array containing `null` therefore aborts the
whole call — inside the `try` blocks of the wrapper and bare-array
interpretations this reroutes to the next interpretation. -/
def rowsToTicketsThrows (rows : List Json) : Bool :=
  rows.any (fun r =>
    match r with
    | Json.null => true
    | _ => false)

/-! ## A model of `JSON.parse`

An executable recursive-descent parser for the JSON grammar, structurally
recursive on a fuel argument (`jsonParse` supplies ample fuel).  It
follows `JSON.parse` strictly: JSON whitespace only, no trailing garbage,
raw control characters rejected inside strings, strict number grammar. -/

/-- JSON grammar whitespace (space, tab, line feed, carriage return). -/
def isJsonWs (c : Char) : Bool :=
  c = ' ' || c = '\t' || c = '\n' || c = '\r'

/-- Skip JSON whitespace. -/
def skipJsonWs (cs : List Char) : List Char :=
  cs.dropWhile isJsonWs

/-- Value of a hexadecimal digit. -/
def hexVal (c : Char) : Option Nat :=
  if '0' ≤ c && c ≤ '9' then some (c.toNat - 48)
  else if 'a' ≤ c && c ≤ 'f' then some (c.toNat - 87)
  else if 'A' ≤ c && c ≤ 'F' then some (c.toNat - 55)
  else none

/-- The simple (single-letter) string escapes of JSON. -/
def escCharOf (e : Char) : Option Char :=
  if e = '"' then some '"'
  else if e = '\\' then some '\\'
  else if e = '/' then some '/'
  else if e = 'b' then some (Char.ofNat 8)
  else if e = 'f' then some (Char.ofNat 12)
  else if e = 'n' then some '\n'
  else if e = 'r' then some '\r'
  else if e = 't' then some '\t'
  else none

/-- Parse the body of a JSON string (after the opening quote) up to and
including the closing quote, returning the decoded characters and the
rest of the input. -/
def parseStringBody : List Char → Option (List Char × List Char)
  | [] => none
  | '"' :: rest => some ([], rest)
  | '\\' :: 'u' :: h1 :: h2 :: h3 :: h4 :: rest3 =>
      match hexVal h1, hexVal h2, hexVal h3, hexVal h4 with
      | some v1, some v2, some v3, some v4 =>
          (parseStringBody rest3).map
            (fun p => (Char.ofNat (((v1 * 16 + v2) * 16 + v3) * 16 + v4) :: p.1, p.2))
      | _, _, _, _ => none
  | '\\' :: e :: rest2 =>
      match escCharOf e with
      | some d => (parseStringBody rest2).map (fun p => (d :: p.1, p.2))
      | none => none
  | c :: rest =>
      if c.toNat < 32 then none
      else (parseStringBody rest).map (fun p => (c :: p.1, p.2))

/-- Lex a JSON number literal, returning its lexeme and the rest. -/
def lexNumber (cs : List Char) : Option (List Char × List Char) :=
  let (sign, cs1) :=
    match cs with
    | '-' :: t => ((['-'] : List Char), t)
    | _ => ([], cs)
  let intPart : Option (List Char × List Char) :=
    match cs1 with
    | '0' :: t => some (['0'], t)
    | c :: t =>
        if c.isDigit && c ≠ '0' then
          some (c :: t.takeWhile Char.isDigit, t.dropWhile Char.isDigit)
        else none
    | [] => none
  match intPart with
  | none => none
  | some (ip, r1) =>
      let fracPart : Option (List Char × List Char) :=
        match r1 with
        | '.' :: t =>
            let ds := t.takeWhile Char.isDigit
            if ds.isEmpty then none else some ('.' :: ds, t.dropWhile Char.isDigit)
        | _ => some ([], r1)
      match fracPart with
      | none => none
      | some (fp, r2) =>
          let expPart : Option (List Char × List Char) :=
            match r2 with
            | e :: t =>
                if e = 'e' || e = 'E' then
                  let (es, t2) :=
                    match t with
                    | '+' :: t2 => (([e, '+'] : List Char), t2)
                    | '-' :: t2 => ([e, '-'], t2)
                    | _ => ([e], t)
                  let ds := t2.takeWhile Char.isDigit
                  if ds.isEmpty then none else some (es ++ ds, t2.dropWhile Char.isDigit)
                else some ([], r2)
            | [] => some ([], r2)
          match expPart with
          | none => none
          | some (ep, r3) => some (sign ++ ip ++ fp ++ ep, r3)

mutual

/-- Parse one JSON value (leading whitespace allowed). -/
def parseVal : Nat → List Char → Option (Json × List Char)
  | 0, _ => none
  | Nat.succ fuel, input =>
      match skipJsonWs input with
      | 'n' :: 'u' :: 'l' :: 'l' :: rest => some (Json.null, rest)
      | 't' :: 'r' :: 'u' :: 'e' :: rest => some (Json.bool true, rest)
      | 'f' :: 'a' :: 'l' :: 's' :: 'e' :: rest => some (Json.bool false, rest)
      | '"' :: rest => (parseStringBody rest).map (fun p => (Json.str ⟨p.1⟩, p.2))
      | '[' :: rest => parseArrItems fuel rest
      | c :: rest =>
          if c = lbrace then parseObjItems fuel rest
          else (lexNumber (c :: rest)).map (fun p => (Json.num ⟨p.1⟩, p.2))
      | [] => none

/-- Parse the items of an array (after the opening bracket). -/
def parseArrItems : Nat → List Char → Option (Json × List Char)
  | 0, _ => none
  | Nat.succ fuel, input =>
      match skipJsonWs input with
      | ']' :: rest => some (Json.arr [], rest)
      | _ => do
          let (v, r1) ← parseVal fuel input
          let (vs, r2) ← parseArrRest fuel r1
          pure (Json.arr (v :: vs), r2)

/-- Parse `, value`* `]` after the first array item. -/
def parseArrRest : Nat → List Char → Option (List Json × List Char)
  | 0, _ => none
  | Nat.succ fuel, input =>
      match skipJsonWs input with
      | ']' :: rest => some ([], rest)
      | ',' :: rest => do
          let (v, r1) ← parseVal fuel rest
          let (vs, r2) ← parseArrRest fuel r1
          pure (v :: vs, r2)
      | _ => none

/-- Parse the members of an object (after the opening brace). -/
def parseObjItems : Nat → List Char → Option (Json × List Char)
  | 0, _ => none
  | Nat.succ fuel, input =>
      match skipJsonWs input with
      | c :: rest =>
          if c = rbrace then some (Json.obj [], rest)
          else do
            let (kv, r1) ← parseMember fuel (c :: rest)
            let (kvs, r2) ← parseObjRest fuel r1
            pure (Json.obj (kv :: kvs), r2)
      | [] => none

/-- Parse one `"key": value` member. -/
def parseMember : Nat → List Char → Option ((String × Json) × List Char)
  | 0, _ => none
  | Nat.succ fuel, input =>
      match skipJsonWs input with
      | '"' :: rest =>
          match parseStringBody rest with
          | none => none
          | some (k, r1) =>
              match skipJsonWs r1 with
              | ':' :: r2 =>
                  (parseVal fuel r2).map (fun p => ((⟨k⟩, p.1), p.2))
              | _ => none
      | _ => none

/-- Parse `, member`* and the closing brace after the first member. -/
def parseObjRest : Nat → List Char → Option (List (String × Json) × List Char)
  | 0, _ => none
  | Nat.succ fuel, input =>
      match skipJsonWs input with
      | c :: rest =>
          if c = rbrace then some ([], rest)
          else if c = ',' then do
            let (kv, r1) ← parseMember fuel rest
            let (kvs, r2) ← parseObjRest fuel r1
            pure (kv :: kvs, r2)
          else none
      | [] => none

end

/-- `JSON.parse` model: parse one value with ample fuel and require that
only whitespace follows. -/
def jsonParse (s : String) : Option Json :=
  match parseVal (2 * s.data.length + 2) s.data with
  | some (j, rest) => if (skipJsonWs rest).isEmpty then some j else none
  | none => none

/-! ## A model of `JSON.stringify(x, null, 2)` -/

/-- `n` spaces. -/
def spacesChars (n : Nat) : List Char :=
  List.replicate n ' '

mutual

/-- Pretty-printing at indent `ind`, exactly as `JSON.stringify(x, null,
2)` lays values out. -/
def renderChars (ind : Nat) : Json → List Char
  | Json.null => "null".data
  | Json.bool true => "true".data
  | Json.bool false => "false".data
  | Json.num lx => lx.data
  | Json.str s => escapeJsonString s
  | Json.arr [] => ['[', ']']
  | Json.arr (x :: xs) =>
      '[' :: '\n' :: spacesChars (ind + 2) ++ renderChars (ind + 2) x ++ renderArrTail ind xs
  | Json.obj [] => [lbrace, rbrace]
  | Json.obj ((k, v) :: ps) =>
      lbrace :: '\n' :: spacesChars (ind + 2) ++ escapeJsonString k ++
        ':' :: ' ' :: renderChars (ind + 2) v ++ renderObjTail ind ps

/-- The rendering of the remaining array items and the closing bracket. -/
def renderArrTail (ind : Nat) : List Json → List Char
  | [] => '\n' :: spacesChars ind ++ [']']
  | x :: xs =>
      ',' :: '\n' :: spacesChars (ind + 2) ++ renderChars (ind + 2) x ++ renderArrTail ind xs

/-- The rendering of the remaining object members and the closing brace. -/
def renderObjTail (ind : Nat) : List (String × Json) → List Char
  | [] => '\n' :: spacesChars ind ++ [rbrace]
  | (k, v) :: ps =>
      ',' :: '\n' :: spacesChars (ind + 2) ++ escapeJsonString k ++
        ':' :: ' ' :: renderChars (ind + 2) v ++ renderObjTail ind ps

end

/-- `JSON.stringify(x, null, 2)`. -/
def stringifyPretty (j : Json) : String :=
  ⟨renderChars 0 j⟩

/-! ## The ticket cache (`src/lib/ticket-store.ts`)

The snapshot file `~/.tix/tickets/_summary.json` is modelled as
`Option String` (`none` = the file does not exist).  `loadSyncedTickets`
returns the raw JS value produced by `JSON.parse` (the TS source merely
casts it), so the model returns `Json`; an absent or unparseable file
yields the empty array, because the source returns `[]` both when
`existsSync` fails and from the `catch` around `JSON.parse`. -/

/-- The JSON image of a `TicketSummary` object, fields in the insertion
order of the object literal in `rowsToTickets`. -/
def ticketToJson (t : TicketSummary) : Json :=
  Json.obj [("id", Json.str t.id),
            ("ticketNumber", Json.str t.ticketNumber),
            ("title", Json.str t.title),
            ("status", Json.str t.status),
            ("priority", Json.str t.priority),
            ("lastUpdated", Json.str t.lastUpdated),
            ("url", Json.str t.url),
            ("githubLinks", Json.arr (t.githubLinks.map Json.str))]

/-- The JSON image of a ticket list. -/
def ticketsToJson (ts : List TicketSummary) : Json :=
  Json.arr (ts.map ticketToJson)

/-- `saveSyncedTickets` (`src/lib/ticket-store.ts:17-20`): overwrite the
snapshot file with `JSON.stringify(tickets, null, 2) + '\n'`, regardless
of the previous file state. -/
def saveSyncedTickets (ts : List TicketSummary) (_prev : Option String) : Option String :=
  some (stringifyPretty (ticketsToJson ts) ++ "\n")

/-- `loadSyncedTickets` (`src/lib/ticket-store.ts:22-32`): `[]` if the
file is absent, the `JSON.parse` of its contents when that parse
succeeds, and `[]` again when the parse throws. -/
def loadSyncedTickets : Option String → Json
  | none => Json.arr []
  | some raw =>
      match jsonParse raw with
      | some j => j
      | none => Json.arr []

/-- All-or-nothing elementwise mapping into `Option` (the model of
`array.map(f)` inside a `try` block: one failure rejects the whole
result). -/
def optMapM {α β : Type} (f : α → Option β) : List α → Option (List β)
  | [] => some []
  | x :: xs =>
      match f x with
      | some y => (optMapM f xs).map (fun ys => y :: ys)
      | none => none

/-- A structural reading of a ticket object back out of JSON (deep
equality of the loaded value with the saved records is stated through
this decoder). -/
def decodeTicket (j : Json) : Option TicketSummary := do
  let strAt := fun (key : String) =>
    match jsGet j key with
    | some (Json.str s) => some s
    | _ => none
  let id ← strAt "id"
  let ticketNumber ← strAt "ticketNumber"
  let title ← strAt "title"
  let status ← strAt "status"
  let priority ← strAt "priority"
  let lastUpdated ← strAt "lastUpdated"
  let url ← strAt "url"
  let githubLinks ←
    match jsGet j "githubLinks" with
    | some (Json.arr xs) =>
        optMapM (fun x =>
          match x with
          | Json.str s => some s
          | _ => none) xs
    | _ => none
  pure ⟨id, ticketNumber, title, status, priority, lastUpdated, url, githubLinks⟩

/-- Structural reading of a ticket list. -/
def decodeTicketList : Json → Option (List TicketSummary)
  | Json.arr xs => optMapM decodeTicket xs
  | _ => none

/-- Round-trip predicate for one value: with fuel at least twice the
rendering's length, parsing the rendering (at any indent, with any
trailing input) yields the value back and consumes exactly the
rendering. -/
def RTv (j : Json) : Prop :=
  ∀ (ind fuel : Nat) (rest : List Char), 2 * (renderChars ind j).length ≤ fuel →
    parseVal fuel (renderChars ind j ++ rest) = some (j, rest)

/-- Round-trip predicate for a rendered array tail. -/
def RTtail (xs : List Json) : Prop :=
  ∀ (ind fuel : Nat) (rest : List Char), 2 * (renderArrTail ind xs).length ≤ fuel →
    parseArrRest fuel (renderArrTail ind xs ++ rest) = some (xs, rest)

/-- Round-trip predicate for a rendered object tail. -/
def RTmtail (ps : List (String × Json)) : Prop :=
  ∀ (ind fuel : Nat) (rest : List Char), 2 * (renderObjTail ind ps).length ≤ fuel →
    parseObjRest fuel (renderObjTail ind ps ++ rest) = some (ps, rest)

/-- A value whose rendering starts, at every indent, with a fixed
non-whitespace character other than `]` (routing the array-items parser
into its value branch). -/
def RThead (j : Json) : Prop :=
  ∀ ind : Nat, ∃ (c : Char) (t : List Char),
    renderChars ind j = c :: t ∧ isJsonWs c = false ∧ c ≠ ']'

/-! ## The output normalizer (`parseTicketsFromOutput`)

The regexes of the source are modelled by direct string functions:
* `/```(?:json)?\s*([\s\S]*?)```/` — `fenceInner` (first fence, optional
  `json` tag, greedy whitespace, lazy body up to the next fence);
* `/\[[\s\S]*\]/` — `arraySliceMatch` (first `[` through last `]`);
* `/\{[^{}]+\}/g` — `braceScan` (all non-overlapping minimal brace groups
  with a non-empty, brace-free interior);
* `/^-+$/`, `/^\s*\|[\s-|]+\|\s*$/` — `allDashes`, `isSepLine`. -/

/-- Index of the first occurrence of `pat` as a substring. -/
def firstSubstrIdx (pat : List Char) : List Char → Option Nat
  | [] => if pat.isPrefixOf ([] : List Char) then some 0 else none
  | c :: t =>
      if pat.isPrefixOf (c :: t) then some 0
      else (firstSubstrIdx pat t).map (· + 1)

/-- Three backticks. -/
def fence3 : List Char := [btick, btick, btick]

/-- The capture of the fence regex, if the blob contains a fenced block:
everything between the first fence (after an optional `json` tag and
greedy whitespace) and the next fence. -/
def fenceInner (output : List Char) : Option (List Char) :=
  match firstSubstrIdx fence3 output with
  | none => none
  | some i =>
      let rest := output.drop (i + 3)
      let rest2 := if ("json".data).isPrefixOf rest then rest.drop 4 else rest
      let rest3 := rest2.dropWhile isJsWs
      match firstSubstrIdx fence3 rest3 with
      | none => none
      | some k => some (rest3.take k)

/-- The fence-stripping step of `parseTicketsFromOutput`
(`src/commands/sync.ts:263-265`): when the fence regex matches, the
trimmed capture replaces the blob. -/
def fenceStrip (output : String) : String :=
  match fenceInner output.data with
  | some inner => jsTrim ⟨inner⟩
  | none => output

/-- The match of `/\[[\s\S]*\]/`: from the first `[` to the last `]`,
when the latter comes after the former. -/
def arraySliceMatch (cs : List Char) : Option (List Char) :=
  match List.findIdx? (fun c => c = '[') cs,
        (List.findIdx? (fun c => c = ']') cs.reverse).map (fun k => cs.length - 1 - k) with
  | some i, some j => if i < j then some ((cs.drop i).take (j - i + 1)) else none
  | _, _ => none

/-- Scan for the interior of one `\{[^{}]+\}` match starting right after
an opening brace: accumulate non-brace characters up to a closing brace;
fail on a nested opening brace, an immediate close, or end of input. -/
def braceTake (acc : List Char) : List Char → Option (List Char × List Char)
  | [] => none
  | c :: rest =>
      if c = rbrace then (if acc.isEmpty then none else some (acc.reverse, rest))
      else if c = lbrace then none
      else braceTake (c :: acc) rest

/-- `braceTake` only ever consumes input (termination helper). -/
theorem braceTakeLen : ∀ (acc cs inner r : List Char),
    braceTake acc cs = some (inner, r) → r.length ≤ cs.length
  | _, [], _, _ => by simp [braceTake]
  | acc, c :: rest, inner, r => by
      simp only [braceTake]
      split
      · split
        · simp
        · intro h
          simp only [Option.some.injEq, Prod.mk.injEq] at h
          simp [← h.2]
      · split
        · simp
        · intro h
          exact Nat.le_trans (braceTakeLen _ rest inner r h) (Nat.le_succ _)

/-- All matches of `/\{[^{}]+\}/g`, in order, non-overlapping. -/
def braceScan : List Char → List (List Char)
  | [] => []
  | c :: rest =>
      if c = lbrace then
        match h : braceTake [] rest with
        | some (inner, r2) => (lbrace :: inner ++ [rbrace]) :: braceScan r2
        | none => braceScan rest
      else braceScan rest
termination_by cs => cs.length
decreasing_by
  · simp_wf
    exact Nat.lt_succ_of_le (braceTakeLen _ _ _ _ h)
  · simp_wf
  · simp_wf

/-- Nonempty all-dash cell test (`/^-+$/`). -/
def allDashes (s : String) : Bool :=
  s ≠ "" && s.data.all (fun d => d = '-')

/-- Cell extraction of `parseMarkdownTable`
(`line.split('|').map(trim).filter(c && !/^-+$/)`). -/
def mdParseRow (l : String) : List String :=
  (((l.splitOn "|").map jsTrim).filter (fun c => c ≠ "" && !allDashes c))

/-- The separator-line test `/^\s*\|[\s-|]+\|\s*$/`. -/
def isSepLine (l : String) : Bool :=
  let core := ((l.data.dropWhile isJsWs).reverse.dropWhile isJsWs).reverse
  match core with
  | [] => false
  | c :: rest =>
      c = '|' && rest.getLast? = some '|' &&
        !rest.dropLast.isEmpty &&
        rest.dropLast.all (fun d => isJsWs d || d = '-' || d = '|')

/-- `parseMarkdownTable` (`src/commands/sync.ts:298-322`): keep the lines
containing a pipe, require at least three, read headers from the first,
drop separator lines, and key each remaining data row (past the first
non-separator line) by the header cells. -/
def parseMarkdownTable (output : String) : Option (List Json) :=
  let lines := (output.splitOn "\n").filter (fun l => jsIncludes l "|")
  if lines.length < 3 then none
  else
    let headers := mdParseRow (lines.headD "")
    if headers.isEmpty then none
    else
      let dataLines := lines.filter (fun l => !isSepLine l)
      let rows := (dataLines.drop 1).map (fun l =>
        let cells := mdParseRow l
        Json.obj ((headers.enum).map (fun p => (p.2, Json.str (cells.getD p.1 "")))))
      if rows.isEmpty then none else some rows

/-- Interpretation 2: a JSON object with a `results` array field
(`src/commands/sync.ts:267-271`); the interpretation succeeds only if
`rowsToTickets` also returns, i.e. the array holds no `null` row. -/
def tryResultsWrapper (s : String) : Option (List Json) :=
  match jsonParse s with
  | some j =>
      if jsonTruthy j then
        match jsGet j "results" with
        | some (Json.arr rs) =>
            if rowsToTicketsThrows rs then none else some rs
        | _ => none
      else none
  | none => none

/-- Interpretation 3: a bare JSON array located by `/\[[\s\S]*\]/`
(`src/commands/sync.ts:273-280`); succeeds only if `rowsToTickets` also
returns on it (no `null` row). -/
def tryBareArray (s : String) : Option (List Json) :=
  match arraySliceMatch s.data with
  | some sub =>
      match jsonParse ⟨sub⟩ with
      | some (Json.arr rs) =>
          if rowsToTicketsThrows rs then none else some rs
      | _ => none
  | none => none

/-- Interpretation 4: a concatenation of individual flat JSON objects
(`src/commands/sync.ts:282-289`); any single parse failure rejects the
whole interpretation (as would a `null` row, which this shape cannot
produce). -/
def tryConcatObjects (s : String) : Option (List Json) :=
  let ms := braceScan s.data
  if ms.isEmpty then none
  else
    match optMapM (fun m => jsonParse ⟨m⟩) ms with
    | some rows =>
        if rowsToTicketsThrows rows then none else some rows
    | none => none

/-- The markdown-table block of `parseTicketsFromOutput`
(`src/commands/sync.ts:291-295`): the last attempt; `null` when it too
fails.  It runs on the original output, not the fence-stripped text. -/
def parseStep4 (output : String) : Option (List TicketSummary) :=
  match parseMarkdownTable output with
  | some rows => some (rowsToTickets rows)
  | none => none

/-- The concatenated-objects block (`src/commands/sync.ts:282-289`):
`jsonStr.match(/\{[^{}]+\}/g)`, parse every match, fall through to the
table block when there is no match or the `try` block throws (a parse
failure, or the `TypeError` of `rowsToTickets` on a `null` row — the
latter cannot actually occur here, every brace-group parse being an
object, but the guard mirrors the `try`). -/
def parseStep3 (jsonStr output : String) : Option (List TicketSummary) :=
  let ms := braceScan jsonStr.data
  if ms.isEmpty then parseStep4 output
  else
    match optMapM (fun m => jsonParse ⟨m⟩) ms with
    | some rows =>
        if rowsToTicketsThrows rows then parseStep4 output
        else some (rowsToTickets rows)
    | none => parseStep4 output

/-- The bare-array block (`src/commands/sync.ts:273-280`):
`jsonStr.match(/\[[\s\S]*\]/)`, parse the slice, accept only an array,
fall through otherwise — also when the `try` block catches the
`TypeError` that `rowsToTickets` raises on an array containing `null`. -/
def parseStep2 (jsonStr output : String) : Option (List TicketSummary) :=
  match arraySliceMatch jsonStr.data with
  | some sub =>
      match jsonParse ⟨sub⟩ with
      | some (Json.arr rows) =>
          if rowsToTicketsThrows rows then parseStep3 jsonStr output
          else some (rowsToTickets rows)
      | _ => parseStep3 jsonStr output
  | none => parseStep3 jsonStr output

/-- `parseTicketsFromOutput` (`src/commands/sync.ts:260-296`), translated
block by block: fence strip, then the `{"results": [...]}` wrapper block
(`:267-271`), falling through `parseStep2`/`parseStep3`/`parseStep4`.
The wrapper block falls through both when the shape test fails and when
its `try` catches the `TypeError` of `rowsToTickets` on a `results`
array containing `null`. -/
def parseTicketsFromOutput (output : String) : Option (List TicketSummary) :=
  let jsonStr := fenceStrip output
  match jsonParse jsonStr with
  | some parsed =>
      if jsonTruthy parsed then
        match jsGet parsed "results" with
        | some (Json.arr rs) =>
            if rowsToTicketsThrows rs then parseStep2 jsonStr output
            else some (rowsToTickets rs)
        | _ => parseStep2 jsonStr output
      else parseStep2 jsonStr output
  | none => parseStep2 jsonStr output

/-- First successful interpretation of an ordered attempt list. -/
def firstSome {α : Type} : List (Option α) → Option α
  | [] => none
  | o :: os =>
      match o with
      | some a => some a
      | none => firstSome os

/-- The normalizer as the spec describes it: an ordered cascade of
interpretations, the first success winning. -/
def parseCascade (output : String) : Option (List Json) :=
  firstSome [tryResultsWrapper (fenceStrip output),
             tryBareArray (fenceStrip output),
             tryConcatObjects (fenceStrip output),
             parseMarkdownTable output]

/-- Phase 3 of `syncCommand` (`src/commands/sync.ts:109-116`): unwrap the
`--output-format json` envelope when the whole output parses as a truthy
value with a string `result` field. -/
def unwrapResultEnvelope (output : String) : String :=
  match jsonParse output with
  | some w =>
      if jsonTruthy w then
        match jsGet w "result" with
        | some (Json.str s) => s
        | _ => output
      else output
  | none => output

/-! ## The process runner (`runClaude`, `src/commands/sync.ts:421-475`)

The runner's settlement logic is event-driven: stdout/stderr `data`
events accumulate text, the `setTimeout` callback kills the child and
rejects, the `close` handler clears the timer and resolves or rejects
from the exit code, the `error` handler clears and rejects.  It is
modelled as a deterministic step function over an event trace; a JS
promise settles at most once, which the `settle` helper encodes. -/

/-- A rejection value: the `Error` message plus its attached `stderr`. -/
structure CliFailure where
  message : String
  stderr : String
  deriving Repr, DecidableEq

/-- The timeout rejection built in the `setTimeout` callback
(`src/commands/sync.ts:442-447`). -/
def timeoutFailure (timeoutMs : Nat) (stderr : String) : CliFailure :=
  ⟨"Claude CLI timed out after " ++ toString (timeoutMs / 1000) ++ "s", stderr⟩

/-- The `close`-handler decision (`src/commands/sync.ts:455-471`): a
non-zero, non-null exit code with non-empty trimmed stdout still
resolves with that stdout; only a non-zero exit with no usable stdout
rejects; a zero or null code resolves. -/
def runClaudeOnClose (code : Option Int) (stdout stderr : String) : Except CliFailure String :=
  match code with
  | some c =>
      if c ≠ 0 then
        if jsTrim stdout ≠ "" then Except.ok (jsTrim stdout)
        else Except.error ⟨"Claude CLI exited with code " ++ toString c, stderr⟩
      else Except.ok (jsTrim stdout)
  | none => Except.ok (jsTrim stdout)

/-- Events observable by one `runClaude` invocation. -/
inductive RunEvent where
  | stdoutData (chunk : String)
  | stderrData (chunk : String)
  | timerFire
  | closeEv (code : Option Int)
  | errorEv (message : String)
  deriving Repr, DecidableEq

/-- The runner's state: accumulated streams, the promise settlement (a JS
promise settles at most once), whether `clearTimeout` ran or the timer
already fired, and whether the child was killed. -/
structure RunState where
  stdoutAcc : String
  stderrAcc : String
  settled : Option (Except CliFailure String)
  timerCleared : Bool
  killed : Bool
  deriving Repr

/-- State before any event. -/
def initRunState : RunState := ⟨"", "", none, false, false⟩

/-- Settle the promise if it is not settled yet (JS promises ignore later
`resolve`/`reject` calls). -/
def settle (s : RunState) (r : Except CliFailure String) : RunState :=
  match s.settled with
  | some _ => s
  | none => ⟨s.stdoutAcc, s.stderrAcc, some r, s.timerCleared, s.killed⟩

/-- One event step of `runClaude`. -/
def runClaudeStep (timeoutMs : Nat) (s : RunState) : RunEvent → RunState
  | RunEvent.stdoutData chunk => ⟨s.stdoutAcc ++ chunk, s.stderrAcc, s.settled, s.timerCleared, s.killed⟩
  | RunEvent.stderrData chunk => ⟨s.stdoutAcc, s.stderrAcc ++ chunk, s.settled, s.timerCleared, s.killed⟩
  | RunEvent.timerFire =>
      if s.timerCleared then s
      else settle ⟨s.stdoutAcc, s.stderrAcc, s.settled, true, true⟩
             (Except.error (timeoutFailure timeoutMs s.stderrAcc))
  | RunEvent.closeEv code =>
      settle ⟨s.stdoutAcc, s.stderrAcc, s.settled, true, s.killed⟩
        (runClaudeOnClose code s.stdoutAcc s.stderrAcc)
  | RunEvent.errorEv message =>
      settle ⟨s.stdoutAcc, s.stderrAcc, s.settled, true, s.killed⟩
        (Except.error ⟨message, s.stderrAcc⟩)

/-- Run a whole event trace. -/
def runClaudeTrace (timeoutMs : Nat) (events : List RunEvent) : RunState :=
  events.foldl (runClaudeStep timeoutMs) initRunState

/-! ## The sync orchestrator (`syncCommand`, phase 2,
`src/commands/sync.ts:39-96`)

Strategy selection is pure control flow over the configuration and the
three strategy results; the strategy bodies themselves only build
prompts and delegate to `runClaude`, so they enter the model as an
oracle giving each strategy's would-be outcome. -/

/-- The configuration fields consulted by strategy selection
(`EqConfig` in `src/types.ts`); a JS-falsy (absent or empty) field is
`none`/`some ""`. -/
structure EqConfig where
  notionDatabaseUrl : Option String
  notionDataSourceId : Option String
  userName : String
  notionUserId : Option String
  deriving Repr, DecidableEq

/-- JS truthiness of an optional string field. -/
def truthyOptStr : Option String → Bool
  | none => false
  | some s => s ≠ ""

/-- The three query strategies. -/
inductive StrategyKind where
  | viewMode
  | sqlMode
  | fallbackMode
  deriving Repr, DecidableEq

/-- Oracle: the `runClaude` outcome each strategy would observe. -/
structure StrategyOutcomes where
  view : Except CliFailure String
  sql : Except CliFailure String
  fallback : Except CliFailure String

/-- Eligibility of view mode (`src/commands/sync.ts:45`):
`!config.notionDataSourceId && config.notionDatabaseUrl &&
config.notionDatabaseUrl.includes('?v=')`. -/
def viewEligible (c : EqConfig) : Bool :=
  !truthyOptStr c.notionDataSourceId && truthyOptStr c.notionDatabaseUrl &&
    jsIncludes (c.notionDatabaseUrl.getD "") "?v="

/-- Result of phase 2: which strategies ran, and the final output or the
hard failure propagated from the fallback strategy. -/
structure SyncAttempt where
  attempted : List StrategyKind
  result : Except CliFailure String
  deriving Repr

/-- Phase 2 of `syncCommand` (`src/commands/sync.ts:39-96`): view mode if
eligible, with its soft-error content check (`error`/`Invalid`
substrings, empty output); then SQL mode if there is still no truthy
output and a data-source id is configured; then the fallback, whose
exception is the only hard failure. -/
def syncPhase2 (c : EqConfig) (o : StrategyOutcomes) : SyncAttempt :=
  let step1 : List StrategyKind × Option String :=
    if viewEligible c then
      ([StrategyKind.viewMode],
        match o.view with
        | Except.ok r =>
            if r ≠ "" && !jsIncludes r "error" && !jsIncludes r "Invalid" then some r
            else none
        | Except.error _ => none)
    else ([], none)
  let step2 : List StrategyKind × Option String :=
    if !truthyOptStr step1.2 && truthyOptStr c.notionDataSourceId then
      (step1.1 ++ [StrategyKind.sqlMode],
        match o.sql with
        | Except.ok r => some r
        | Except.error _ => step1.2)
    else step1
  if !truthyOptStr step2.2 then
    match o.fallback with
    | Except.ok r => ⟨step2.1 ++ [StrategyKind.fallbackMode], Except.ok r⟩
    | Except.error e => ⟨step2.1 ++ [StrategyKind.fallbackMode], Except.error e⟩
  else ⟨step2.1, Except.ok (step2.2.getD "")⟩

/-- The default timeout of `syncCommand` (`src/commands/sync.ts:16`,
`60_000` ms when no `--timeout` flag is given). -/
def defaultTimeoutMs : Nat := 60000

/-- The timeout each strategy passes to `runClaude`: the shared timeout
for view and SQL mode, `Math.max(timeoutMs, 120_000)` for the fallback
(`src/commands/sync.ts:216`). -/
def strategyTimeoutMs : StrategyKind → Nat → Nat
  | StrategyKind.viewMode, t => t
  | StrategyKind.sqlMode, t => t
  | StrategyKind.fallbackMode, t => max t 120000

/-! ## Spec-side definitions and concrete inputs used by the theorems -/

/-- The GitHub-link harvest as the spec words it: the concatenation, in
field order, of the links contributed by each field value (split tokens
of a link-bearing scalar, link-bearing items of a list). -/
def harvestLinksSpec (row : Json) : List String :=
  ((rowEntries row).map (fun kv =>
    match kv.2 with
    | Json.str s =>
        if jsIncludes s "github.com" then
          (jsSplitWsComma s).filter (fun t => jsIncludes t "github.com")
        else []
    | Json.arr items =>
        items.filterMap (fun it =>
          match it with
          | Json.str s => if jsIncludes s "github.com" then some s else none
          | _ => none)
    | _ => [])).flatten

/-- The stdout text accumulated by the data events of a trace. -/
def traceStdout : List RunEvent → String
  | [] => ""
  | RunEvent.stdoutData ch :: evs => ch ++ traceStdout evs
  | _ :: evs => traceStdout evs

/-- The stderr text accumulated by the data events of a trace. -/
def traceStderr : List RunEvent → String
  | [] => ""
  | RunEvent.stderrData ch :: evs => ch ++ traceStderr evs
  | _ :: evs => traceStderr evs

/-- An event is a pure data event (no settlement effect). -/
def isDataEvent : RunEvent → Bool
  | RunEvent.stdoutData _ => true
  | RunEvent.stderrData _ => true
  | _ => false

/-- Two rows carrying the same `id` (concrete input). -/
def dupIdRows : List Json :=
  [Json.obj [("id", Json.str "abc"), ("title", Json.str "first")],
   Json.obj [("id", Json.str "abc"), ("title", Json.str "second")]]

/-- A row whose two fields carry the same GitHub URL (concrete input). -/
def dupLinkRow : Json :=
  Json.obj [("description", Json.str "https://github.com/org/repo/pull/1"),
            ("notes", Json.str "https://github.com/org/repo/pull/1")]

/-! ## Helper lemmas -/

/-- `rowsToTickets` is exactly "filter out the completed rows, then build
one record per surviving row, in order". -/
theorem rowsToTicketsChar (rows : List Json) :
    rowsToTickets rows = (rows.filter (fun r => !isCompletedRow r)).map rowToTicket := by
  induction rows with
  | nil => rfl
  | cons r rs ih =>
      by_cases h : isCompletedRow r <;>
        simp [rowsToTickets, List.filter_cons, h, ih]

/-- The record built from a row keeps the row's synonym-matched status. -/
theorem rowToTicket_status (row : Json) :
    (rowToTicket row).status = rowStatus row := rfl

/-- The record built from a row carries exactly the harvested links. -/
theorem rowToTicket_links (row : Json) :
    (rowToTicket row).githubLinks = harvestGithubLinks row := rfl

/-- Fold-append form of the link harvest equals the flatten-of-map
form. -/
theorem harvestGithubLinks_eq_spec (row : Json) : harvestGithubLinks row = harvestLinksSpec row := by
  unfold harvestGithubLinks harvestLinksSpec
  generalize rowEntries row = l
  induction l using List.reverseRecOn with
  | nil => rfl
  | append_singleton xs kv ih =>
      simp only [List.foldl_append, List.foldl_cons, List.foldl_nil,
        List.map_append, List.map_cons, List.map_nil, List.flatten_append,
        List.flatten_cons, List.flatten_nil, List.append_nil, ih]
      cases kv.2 with
      | str s => by_cases hgh : jsIncludes s "github.com" = true <;> simp [hgh]
      | arr items => simp
      | null => simp
      | bool b => simp
      | num lx => simp
      | obj fs => simp

/-! ## Claim theorems -/

/-- **C9, counterexample.**  With a configured timeout of 200000 ms the
fallback strategy's timeout equals the other strategies' timeout: it is
neither doubled nor strictly the longest. -/
theorem C9_counterexample :
    strategyTimeoutMs StrategyKind.fallbackMode 200000 = 200000 ∧
    strategyTimeoutMs StrategyKind.viewMode 200000 = 200000 ∧
    strategyTimeoutMs StrategyKind.sqlMode 200000 = 200000 ∧
    ¬ (strategyTimeoutMs StrategyKind.fallbackMode 200000 =
        2 * strategyTimeoutMs StrategyKind.viewMode 200000) ∧
    ¬ (strategyTimeoutMs StrategyKind.fallbackMode 200000 >
        strategyTimeoutMs StrategyKind.viewMode 200000) := by
  refine ⟨rfl, rfl, rfl, ?_, ?_⟩ <;> decide

/-- **C9, amended.**  The open-ended-search strategy's timeout is the
shared timeout raised to a fixed floor of 120000 ms (twice the 60000 ms
default timeout): it is never shorter than the other two strategies'
timeout, and strictly longer exactly when the configured timeout is
below the floor. -/
theorem C9_amended (t : Nat) :
    strategyTimeoutMs StrategyKind.fallbackMode t = max t 120000 ∧
    strategyTimeoutMs StrategyKind.viewMode t = t ∧
    strategyTimeoutMs StrategyKind.sqlMode t = t ∧
    strategyTimeoutMs StrategyKind.viewMode t ≤ strategyTimeoutMs StrategyKind.fallbackMode t ∧
    (strategyTimeoutMs StrategyKind.viewMode t < strategyTimeoutMs StrategyKind.fallbackMode t
        ↔ t < 120000) ∧
    120000 = 2 * defaultTimeoutMs := by
  refine ⟨rfl, rfl, rfl, ?_, ?_, rfl⟩
  · exact Nat.le_max_left t 120000
  · simp only [strategyTimeoutMs]
    omega

/-- **C5.**  When the subprocess closes with a non-zero (non-null) exit
code, `runClaude` resolves with the trimmed stdout whenever that is
non-empty, and rejects with the exit-code error carrying the captured
stderr only when the trimmed stdout is empty. -/
theorem C5_softSuccess (code : Int) (stdout stderr : String) (hc : code ≠ 0) :
    (jsTrim stdout ≠ "" →
      runClaudeOnClose (some code) stdout stderr = Except.ok (jsTrim stdout)) ∧
    (jsTrim stdout = "" →
      runClaudeOnClose (some code) stdout stderr =
        Except.error ⟨"Claude CLI exited with code " ++ toString code, stderr⟩) := by
  constructor <;> intro h <;> simp [runClaudeOnClose, hc, h]

/-- Witness for C5 at exit code 2, stdout `" out "`, stderr `"boom"`. -/
theorem C5_witness :
    (2 : Int) ≠ 0 ∧ jsTrim " out " ≠ "" ∧
    runClaudeOnClose (some 2) " out " "boom" = Except.ok (jsTrim " out ") :=
  ⟨by decide, by decide, (C5_softSuccess 2 " out " "boom" (by decide)).1 (by decide)⟩

/-- **C10.**  `loadSyncedTickets` returns the empty list when the
snapshot file is absent, and also whenever the file's contents do not
parse as JSON; it is a total function of the file state. -/
theorem C10_loadTotal :
    loadSyncedTickets none = Json.arr [] ∧
    ∀ raw : String, jsonParse raw = none → loadSyncedTickets (some raw) = Json.arr [] := by
  refine ⟨rfl, ?_⟩
  intro raw h
  simp [loadSyncedTickets, h]

/-- Witness for C10 on the unparseable snapshot `"garbage"`. -/
theorem C10_witness :
    jsonParse "garbage" = none ∧ loadSyncedTickets (some "garbage") = Json.arr [] :=
  ⟨rfl, C10_loadTotal.2 "garbage" rfl⟩

/-- **C2.**  Rows whose synonym-matched status (`status`/`state`, case-
and separator-insensitive via `findField`) lowercases into the
completed-status set contribute nothing to `rowsToTickets`: filtering
them away first changes nothing, and no record with a completed status
ever appears in the output. -/
theorem C2_completedDropped (rows : List Json) :
    rowsToTickets (rows.filter (fun r =>
        !(COMPLETED_STATUSES.contains (jsToLower ((findField r ["status", "state"]).getD ""))))) =
      rowsToTickets rows ∧
    (rowsToTickets rows).all
      (fun t => !COMPLETED_STATUSES.contains (jsToLower t.status)) = true := by
  constructor
  · rw [rowsToTicketsChar, rowsToTicketsChar]
    congr 1
    rw [List.filter_filter]
    apply List.filter_congr
    intro r _
    simp [isCompletedRow, rowStatus]
  · rw [rowsToTicketsChar]
    simp only [List.all_eq_true, List.mem_map, List.mem_filter]
    rintro t ⟨r, ⟨_, hr⟩, rfl⟩
    simpa [rowToTicket_status, isCompletedRow] using hr

/-- **C3, counterexample.**  Two normalized rows with the same id `"abc"`
both survive `rowsToTickets`: the output holds two records for that id
(the first- and the last-seen row), not exactly one. -/
theorem C3_counterexample :
    (rowsToTickets dupIdRows).map (fun t => (t.id, t.title)) =
      [("abc", "first"), ("abc", "second")] ∧
    (rowsToTickets dupIdRows).length = 2 := by
  constructor <;> rfl

/-- **C3, amended.**  The ticket list written to the cache holds one
record per non-completed row, in insertion order (the API return order,
never re-sorted); duplicate ids are not collapsed — every row with a
repeated id contributes its own record. -/
theorem C3_amended (rows : List Json) :
    rowsToTickets rows = (rows.filter (fun r => !isCompletedRow r)).map rowToTicket :=
  rowsToTicketsChar rows

/-- **C4, counterexample.**  A row carrying the same GitHub URL in two
fields yields a `githubLinks` list with that URL twice: the list is not
de-duplicated. -/
theorem C4_counterexample :
    (rowToTicket dupLinkRow).githubLinks =
      ["https://github.com/org/repo/pull/1", "https://github.com/org/repo/pull/1"] ∧
    ¬ (rowToTicket dupLinkRow).githubLinks.Nodup ∧
    rowsToTickets [dupLinkRow] = [rowToTicket dupLinkRow] := by
  have h1 : (rowToTicket dupLinkRow).githubLinks =
      ["https://github.com/org/repo/pull/1", "https://github.com/org/repo/pull/1"] := rfl
  refine ⟨h1, ?_, rfl⟩
  rw [h1]
  simp

/-- **C4, amended.**  For every input row, `githubLinks` is the ordered
concatenation (duplicates preserved, not a de-duplicated set) of the
GitHub URLs harvested from every field value in field order — scalar
string fields split on whitespace/commas with the link-bearing tokens
kept, list fields contributing their link-bearing string items. -/
theorem C4_amended (rows : List Json) :
    (rowsToTickets rows).map TicketSummary.githubLinks =
      (rows.filter (fun r => !isCompletedRow r)).map harvestLinksSpec := by
  rw [rowsToTicketsChar, List.map_map]
  refine List.map_congr_left (fun r _ => ?_)
  show (rowToTicket r).githubLinks = harvestLinksSpec r
  rw [rowToTicket_links]
  exact harvestGithubLinks_eq_spec r

/-- **C6.**  When view mode is eligible and its output contains
`Invalid` or `error`, the orchestrator treats it as a soft failure: SQL
mode is necessarily ineligible (view eligibility requires the absence of
a data-source id), the fallback strategy is attempted next, and the
run's result is exactly the fallback's outcome — no immediate failure. -/
theorem C6_softFailFallthrough (c : EqConfig) (o : StrategyOutcomes) (r : String)
    (helig : viewEligible c = true)
    (hview : o.view = Except.ok r)
    (hbad : jsIncludes r "Invalid" = true ∨ jsIncludes r "error" = true) :
    (syncPhase2 c o).attempted = [StrategyKind.viewMode, StrategyKind.fallbackMode] ∧
    truthyOptStr c.notionDataSourceId = false ∧
    (syncPhase2 c o).result = o.fallback := by
  have hds : truthyOptStr c.notionDataSourceId = false := by
    unfold viewEligible at helig
    simp only [Bool.and_eq_true, Bool.not_eq_true'] at helig
    exact helig.1.1
  have hcheck : (r ≠ "" && !jsIncludes r "error" && !jsIncludes r "Invalid") = false := by
    rcases hbad with h | h <;> simp [h]
  have hnone : truthyOptStr (none : Option String) = false := rfl
  simp only [syncPhase2, helig, hview, hcheck, hds, hnone, if_true, if_false,
    Bool.and_false, Bool.and_true, Bool.not_false]
  cases o.fallback <;> simp [truthyOptStr]

/-- Witness for C6: a config with a `?v=` view URL and no data-source
id, view output `"Invalid request"`, fallback output `"[]"`. -/
theorem C6_witness :
    (syncPhase2 ⟨some "https://www.notion.so/db?v=123", none, "user", none⟩
        ⟨Except.ok "Invalid request", Except.ok "unused", Except.ok "[]"⟩).attempted =
      [StrategyKind.viewMode, StrategyKind.fallbackMode] ∧
    truthyOptStr (none : Option String) = false ∧
    (syncPhase2 ⟨some "https://www.notion.so/db?v=123", none, "user", none⟩
        ⟨Except.ok "Invalid request", Except.ok "unused", Except.ok "[]"⟩).result =
      Except.ok "[]" :=
  C6_softFailFallthrough _ _ "Invalid request" (by decide) rfl (Or.inl (by decide))

/-- `settle` never changes `killed`. -/
theorem settle_killed (s : RunState) (r : Except CliFailure String) :
    (settle s r).killed = s.killed := by
  unfold settle
  cases s.settled <;> rfl

/-- A settled promise stays settled with the same value across any
event. -/
theorem runClaudeStep_settled (t : Nat) (s : RunState) (e : RunEvent)
    (r : Except CliFailure String) (h : s.settled = some r) :
    (runClaudeStep t s e).settled = some r := by
  cases e with
  | stdoutData ch => simpa [runClaudeStep] using h
  | stderrData ch => simpa [runClaudeStep] using h
  | timerFire => by_cases hc : s.timerCleared <;> simp [runClaudeStep, hc, settle, h]
  | closeEv code => simp [runClaudeStep, settle, h]
  | errorEv m => simp [runClaudeStep, settle, h]

/-- A killed child stays killed across any event. -/
theorem runClaudeStep_killed (t : Nat) (s : RunState) (e : RunEvent)
    (h : s.killed = true) : (runClaudeStep t s e).killed = true := by
  cases e with
  | stdoutData ch => simpa [runClaudeStep] using h
  | stderrData ch => simpa [runClaudeStep] using h
  | timerFire =>
      by_cases hc : s.timerCleared
      · simpa [runClaudeStep, hc] using h
      · simp [runClaudeStep, hc, settle_killed]
  | closeEv code => simp [runClaudeStep, settle_killed, h]
  | errorEv m => simp [runClaudeStep, settle_killed, h]

/-- Absorption over a whole residual trace: settlement and value are
final. -/
theorem trace_settled_absorb (t : Nat) (evs : List RunEvent) :
    ∀ (s : RunState) (r : Except CliFailure String), s.settled = some r →
      (evs.foldl (runClaudeStep t) s).settled = some r := by
  induction evs with
  | nil => intro s r h; simpa using h
  | cons e evs ih =>
      intro s r h
      exact ih _ r (runClaudeStep_settled t s e r h)

/-- `killed` persists over a whole residual trace. -/
theorem trace_killed_persist (t : Nat) (evs : List RunEvent) :
    ∀ s : RunState, s.killed = true →
      (evs.foldl (runClaudeStep t) s).killed = true := by
  induction evs with
  | nil => intro s h; simpa using h
  | cons e evs ih =>
      intro s h
      exact ih _ (runClaudeStep_killed t s e h)

/-- Running only data events accumulates the streams and changes nothing
else. -/
theorem dataPrefixState (t : Nat) (evs : List RunEvent)
    (hdata : ∀ e ∈ evs, isDataEvent e = true) :
    ∀ s : RunState, evs.foldl (runClaudeStep t) s =
      ⟨s.stdoutAcc ++ traceStdout evs, s.stderrAcc ++ traceStderr evs,
       s.settled, s.timerCleared, s.killed⟩ := by
  induction evs with
  | nil =>
      intro s
      obtain ⟨a, b, c, d, e⟩ := s
      simp [traceStdout, traceStderr]
  | cons e evs ih =>
      intro s
      have he := hdata e (List.mem_cons_self e evs)
      have hrest : ∀ x ∈ evs, isDataEvent x = true :=
        fun x hx => hdata x (List.mem_cons_of_mem e hx)
      cases e with
      | stdoutData ch =>
          simp [List.foldl_cons, runClaudeStep, ih hrest, traceStdout, traceStderr,
            String.append_assoc]
      | stderrData ch =>
          simp [List.foldl_cons, runClaudeStep, ih hrest, traceStdout, traceStderr,
            String.append_assoc]
      | timerFire => simp [isDataEvent] at he
      | closeEv code => simp [isDataEvent] at he
      | errorEv m => simp [isDataEvent] at he

/-- **C8.**  If the timeout deadline elapses (the timer fires) before
the subprocess closes or errors — only stream data events precede it —
then the child is killed and the promise settles with the timeout
rejection; whatever happens afterwards (including a later `close` with
buffered stdout), the settlement value stays that timeout failure and
the child stays killed. -/
theorem C8_timeoutSettles (t : Nat) (pre post : List RunEvent)
    (hpre : ∀ e ∈ pre, isDataEvent e = true) :
    (runClaudeTrace t (pre ++ RunEvent.timerFire :: post)).settled =
      some (Except.error (timeoutFailure t (traceStderr pre))) ∧
    (runClaudeTrace t (pre ++ RunEvent.timerFire :: post)).killed = true := by
  unfold runClaudeTrace
  rw [List.foldl_append, dataPrefixState t pre hpre initRunState, List.foldl_cons]
  have hstep : runClaudeStep t
      ⟨initRunState.stdoutAcc ++ traceStdout pre, initRunState.stderrAcc ++ traceStderr pre,
       initRunState.settled, initRunState.timerCleared, initRunState.killed⟩
      RunEvent.timerFire =
      ⟨initRunState.stdoutAcc ++ traceStdout pre, initRunState.stderrAcc ++ traceStderr pre,
       some (Except.error (timeoutFailure t (initRunState.stderrAcc ++ traceStderr pre))),
       true, true⟩ := by
    simp [runClaudeStep, initRunState, settle]
  rw [hstep]
  constructor
  · have : ("" : String) ++ traceStderr pre = traceStderr pre := by simp
    rw [show initRunState.stderrAcc ++ traceStderr pre = traceStderr pre by simp [initRunState]]
    exact trace_settled_absorb t post _ _ rfl
  · exact trace_killed_persist t post _ rfl

/-- The table block is the mapped last cascade attempt. -/
theorem parseStep4_cascade (output : String) :
    parseStep4 output = (parseMarkdownTable output).map rowsToTickets := by
  unfold parseStep4
  cases parseMarkdownTable output <;> rfl

/-- The concatenated-objects block is the mapped two-attempt cascade. -/
theorem parseStep3_cascade (s output : String) :
    parseStep3 s output =
      (firstSome [tryConcatObjects s, parseMarkdownTable output]).map rowsToTickets := by
  unfold parseStep3 tryConcatObjects
  cases hm : (braceScan s.data).isEmpty with
  | true => cases h4 : parseMarkdownTable output <;> simp [hm, firstSome, parseStep4, h4]
  | false =>
      simp only [hm, Bool.false_eq_true, if_false]
      split
      · rename_i rows h
        cases hg : rowsToTicketsThrows rows with
        | false => simp [firstSome, h, hg]
        | true =>
            cases h4 : parseMarkdownTable output <;>
              simp [firstSome, h, hg, parseStep4, h4]
      · rename_i h
        cases h4 : parseMarkdownTable output <;> simp [firstSome, parseStep4, h4, h]

/-- The bare-array block is the mapped three-attempt cascade. -/
theorem parseStep2_cascade (s output : String) :
    parseStep2 s output =
      (firstSome [tryBareArray s, tryConcatObjects s, parseMarkdownTable output]).map
        rowsToTickets := by
  unfold parseStep2 tryBareArray
  cases h1 : arraySliceMatch s.data with
  | none => simp [firstSome, parseStep3_cascade]
  | some sub =>
      cases h2 : jsonParse ⟨sub⟩ with
      | none => simp only [h2]; simp [firstSome, parseStep3_cascade]
      | some j =>
          cases j with
          | null => simp only [h2]; simp [firstSome, parseStep3_cascade]
          | bool b => simp only [h2]; simp [firstSome, parseStep3_cascade]
          | num l => simp only [h2]; simp [firstSome, parseStep3_cascade]
          | str t => simp only [h2]; simp [firstSome, parseStep3_cascade]
          | arr rows =>
              simp only [h2]
              cases hg : rowsToTicketsThrows rows <;>
                simp [hg, firstSome, parseStep3_cascade]
          | obj fs => simp only [h2]; simp [firstSome, parseStep3_cascade]

/-- A four-attempt cascade fails exactly when every attempt fails. -/
theorem firstSome4_none {α : Type} (a b c d : Option α) :
    firstSome [a, b, c, d] = none ↔ a = none ∧ b = none ∧ c = none ∧ d = none := by
  cases a <;> cases b <;> cases c <;> cases d <;> simp [firstSome]

/-- **C1.**  The normalizer equals the ordered interpretation cascade —
fence strip, `results`-wrapper object, bare array, concatenated objects,
markdown table — with the first successful interpretation determining
the row list; it returns `none` exactly when all interpretations fail —
an interpretation also failing when its `try` catches the `TypeError`
that `rowsToTickets` raises on a `null` row — and never a partial result
(the output is always the full `rowsToTickets` image of one
interpretation's rows). -/
theorem C1_parseCascade (output : String) :
    parseTicketsFromOutput output = (parseCascade output).map rowsToTickets ∧
    (parseTicketsFromOutput output = none ↔
      tryResultsWrapper (fenceStrip output) = none ∧
      tryBareArray (fenceStrip output) = none ∧
      tryConcatObjects (fenceStrip output) = none ∧
      parseMarkdownTable output = none) := by
  have h1 : parseTicketsFromOutput output = (parseCascade output).map rowsToTickets := by
    unfold parseTicketsFromOutput parseCascade tryResultsWrapper
    cases hp : jsonParse (fenceStrip output) with
    | none => simp [hp, firstSome, parseStep2_cascade]
    | some parsed =>
        cases ht : jsonTruthy parsed
        · simp [hp, ht, firstSome, parseStep2_cascade]
        · cases hg : jsGet parsed "results" with
          | none => simp [hp, ht, hg, firstSome, parseStep2_cascade]
          | some v =>
              cases v with
              | null => simp [hp, ht, hg, firstSome, parseStep2_cascade]
              | bool b => simp [hp, ht, hg, firstSome, parseStep2_cascade]
              | num l => simp [hp, ht, hg, firstSome, parseStep2_cascade]
              | str t => simp [hp, ht, hg, firstSome, parseStep2_cascade]
              | arr rs =>
                  cases hgr : rowsToTicketsThrows rs <;>
                    simp [hp, ht, hg, hgr, firstSome, parseStep2_cascade]
              | obj fs => simp [hp, ht, hg, firstSome, parseStep2_cascade]
  refine ⟨h1, ?_⟩
  rw [h1]
  unfold parseCascade
  simp only [Option.map_eq_none']
  exact firstSome4_none _ _ _ _

/-! ## Round-trip lemmas: `jsonParse` inverts `JSON.stringify(x, null, 2)`
on the values the ticket store writes -/

/-- Dropping JSON whitespace skips over an all-whitespace prefix. -/
theorem skipJsonWs_append (pre cs : List Char) (h : ∀ c ∈ pre, isJsonWs c = true) :
    skipJsonWs (pre ++ cs) = skipJsonWs cs := by
  induction pre with
  | nil => rfl
  | cons c t ih =>
      have hc := h c (List.mem_cons_self c t)
      have ht := fun x hx => h x (List.mem_cons_of_mem c hx)
      simp only [List.cons_append, skipJsonWs, List.dropWhile, hc]
      exact ih ht

/-- The characters of an indentation run are JSON whitespace. -/
theorem spaces_ws (n : Nat) : ∀ c ∈ spacesChars n, isJsonWs c = true := by
  intro c hc
  have := List.eq_of_mem_replicate hc
  subst this
  rfl

/-- A newline plus indentation is JSON whitespace. -/
theorem nlSpaces_ws (n : Nat) : ∀ c ∈ '\n' :: spacesChars n, isJsonWs c = true := by
  intro c hc
  rcases List.mem_cons.mp hc with h | h
  · subst h; rfl
  · exact spaces_ws n c h

/-- `parseVal` ignores a leading all-whitespace prefix. -/
theorem parseVal_wsPre (fuel : Nat) (pre cs : List Char)
    (h : ∀ c ∈ pre, isJsonWs c = true) :
    parseVal fuel (pre ++ cs) = parseVal fuel cs := by
  cases fuel with
  | zero => rfl
  | succ f =>
      unfold parseVal
      rw [skipJsonWs_append pre cs h]

/-- Hex digits decode their value. -/
theorem hexVal_hexDig : ∀ k : Nat, k < 16 → hexVal (hexDig k) = some k := by
  decide

/-- `parseStringBody` inverts `JSON.stringify` escaping: it consumes the
escaped body and the closing quote, returning the original characters
and the rest of the input. -/
theorem parseStringBody_escape : ∀ (s rest : List Char),
    parseStringBody ((s.map escapeChar).flatten ++ '"' :: rest) = some (s, rest)
  | [], rest => by
      simp only [List.map_nil, List.flatten_nil, List.nil_append]
      rfl
  | c :: cs, rest => by
      have ih := parseStringBody_escape cs rest
      simp only [List.map_cons, List.flatten_cons, List.append_assoc]
      by_cases h1 : c = '"'
      · subst h1
        rw [show escapeChar '"' = ['\\', '"'] from rfl]
        simp only [List.cons_append, List.nil_append]
        rw [show ∀ X, parseStringBody ('\\' :: '"' :: X) =
              (parseStringBody X).map (fun p => ('"' :: p.1, p.2)) from fun X => rfl, ih]
        rfl
      · by_cases h2 : c = '\\'
        · subst h2
          rw [show escapeChar '\\' = ['\\', '\\'] from rfl]
          simp only [List.cons_append, List.nil_append]
          rw [show ∀ X, parseStringBody ('\\' :: '\\' :: X) =
                (parseStringBody X).map (fun p => ('\\' :: p.1, p.2)) from fun X => rfl, ih]
          rfl
        · by_cases h3 : c = Char.ofNat 8
          · subst h3
            rw [show escapeChar (Char.ofNat 8) = ['\\', 'b'] from rfl]
            simp only [List.cons_append, List.nil_append]
            rw [show ∀ X, parseStringBody ('\\' :: 'b' :: X) =
                  (parseStringBody X).map (fun p => (Char.ofNat 8 :: p.1, p.2)) from
                fun X => rfl, ih]
            rfl
          · by_cases h4 : c = '\t'
            · subst h4
              rw [show escapeChar '\t' = ['\\', 't'] from rfl]
              simp only [List.cons_append, List.nil_append]
              rw [show ∀ X, parseStringBody ('\\' :: 't' :: X) =
                    (parseStringBody X).map (fun p => ('\t' :: p.1, p.2)) from fun X => rfl, ih]
              rfl
            · by_cases h5 : c = '\n'
              · subst h5
                rw [show escapeChar '\n' = ['\\', 'n'] from rfl]
                simp only [List.cons_append, List.nil_append]
                rw [show ∀ X, parseStringBody ('\\' :: 'n' :: X) =
                      (parseStringBody X).map (fun p => ('\n' :: p.1, p.2)) from fun X => rfl,
                  ih]
                rfl
              · by_cases h6 : c = Char.ofNat 12
                · subst h6
                  rw [show escapeChar (Char.ofNat 12) = ['\\', 'f'] from rfl]
                  simp only [List.cons_append, List.nil_append]
                  rw [show ∀ X, parseStringBody ('\\' :: 'f' :: X) =
                        (parseStringBody X).map (fun p => (Char.ofNat 12 :: p.1, p.2)) from
                      fun X => rfl, ih]
                  rfl
                · by_cases h7 : c = '\r'
                  · subst h7
                    rw [show escapeChar '\r' = ['\\', 'r'] from rfl]
                    simp only [List.cons_append, List.nil_append]
                    rw [show ∀ X, parseStringBody ('\\' :: 'r' :: X) =
                          (parseStringBody X).map (fun p => ('\r' :: p.1, p.2)) from
                        fun X => rfl, ih]
                    rfl
                  · by_cases h8 : c.toNat < 32
                    · rw [show escapeChar c =
                            ['\\', 'u', '0', '0', hexDig (c.toNat / 16), hexDig (c.toNat % 16)]
                          from by
                        unfold escapeChar
                        simp [h1, h2, h3, h4, h5, h6, h7, h8]]
                      have hd1 : hexVal (hexDig (c.toNat / 16)) = some (c.toNat / 16) :=
                        hexVal_hexDig _ (by omega)
                      have hd2 : hexVal (hexDig (c.toNat % 16)) = some (c.toNat % 16) :=
                        hexVal_hexDig _ (by omega)
                      simp only [List.cons_append, List.nil_append]
                      simp [parseStringBody, escCharOf, hd1, hd2, ih,
                        show hexVal '0' = some 0 from rfl]
                      rw [show c.toNat / 16 * 16 + c.toNat % 16 = c.toNat from by omega,
                        Char.ofNat_toNat]
                    · rw [show escapeChar c = [c] from by
                        unfold escapeChar
                        simp [h1, h2, h3, h4, h5, h6, h7, h8]]
                      simp [parseStringBody, h1, h2, h8, ih, List.cons_append,
                        List.nil_append]

/-- Unfolding equation of the renderer on arrays with items. -/
theorem render_arr_cons (ind : Nat) (x : Json) (xs : List Json) :
    renderChars ind (Json.arr (x :: xs)) =
      '[' :: '\n' :: spacesChars (ind + 2) ++ renderChars (ind + 2) x ++
        renderArrTail ind xs := rfl

/-- Unfolding equation of the renderer on objects with members. -/
theorem render_obj_cons (ind : Nat) (k : String) (v : Json) (ps : List (String × Json)) :
    renderChars ind (Json.obj ((k, v) :: ps)) =
      lbrace :: '\n' :: spacesChars (ind + 2) ++ escapeJsonString k ++
        ':' :: ' ' :: renderChars (ind + 2) v ++ renderObjTail ind ps := rfl

/-- Dropping whitespace stops at a non-whitespace head. -/
theorem skipJsonWs_cons_nonws (c : Char) (t : List Char) (h : isJsonWs c = false) :
    skipJsonWs (c :: t) = c :: t := by
  simp [skipJsonWs, List.dropWhile, h]

/-- Dropping whitespace skips a newline plus indentation. -/
theorem skipJsonWs_nlsp (ind : Nat) (cs : List Char) :
    skipJsonWs ('\n' :: (spacesChars ind ++ cs)) = skipJsonWs cs := by
  have := skipJsonWs_append ('\n' :: spacesChars ind) cs (nlSpaces_ws ind)
  simpa using this

/-- `parseVal` skips a newline plus indentation. -/
theorem parseVal_nlsp (fuel ind : Nat) (cs : List Char) :
    parseVal fuel ('\n' :: (spacesChars ind ++ cs)) = parseVal fuel cs := by
  have := parseVal_wsPre fuel ('\n' :: spacesChars ind) cs (nlSpaces_ws ind)
  simpa using this

/-- String values round-trip. -/
theorem RTv_str (s : String) : RTv (Json.str s) := by
  intro ind fuel rest hfuel
  have hlen : (renderChars ind (Json.str s)).length =
      (s.data.map escapeChar).flatten.length + 2 := by
    simp [renderChars, escapeJsonString]
  obtain ⟨f, rfl⟩ : ∃ f, fuel = f + 1 := ⟨fuel - 1, by omega⟩
  rw [show renderChars ind (Json.str s) = escapeJsonString s from rfl]
  unfold escapeJsonString
  simp only [List.cons_append, List.append_assoc, List.nil_append]
  rw [show ∀ X, parseVal (f + 1) ('"' :: X) =
        (parseStringBody X).map (fun p => (Json.str ⟨p.1⟩, p.2)) from fun X => rfl]
  rw [parseStringBody_escape]
  rfl

/-- String renderings start with a quote. -/
theorem RThead_str (s : String) : RThead (Json.str s) :=
  fun _ => ⟨'"', (s.data.map escapeChar).flatten ++ ['"'], rfl, rfl, by decide⟩

/-- Non-empty object renderings start with a brace. -/
theorem RThead_obj_cons (k : String) (v : Json) (ps : List (String × Json)) :
    RThead (Json.obj ((k, v) :: ps)) :=
  fun ind =>
    ⟨lbrace,
     '\n' :: spacesChars (ind + 2) ++ escapeJsonString k ++
       ':' :: ' ' :: renderChars (ind + 2) v ++ renderObjTail ind ps,
     rfl, by decide, by decide⟩

/-- Array renderings start with a bracket. -/
theorem RThead_arr (xs : List Json) : RThead (Json.arr xs) := by
  intro ind
  cases xs with
  | nil => exact ⟨'[', [']'], rfl, rfl, by decide⟩
  | cons x xs =>
      exact ⟨'[', '\n' :: spacesChars (ind + 2) ++ renderChars (ind + 2) x ++
        renderArrTail ind xs, rfl, rfl, by decide⟩

/-- `parseArrItems` ignores a leading all-whitespace prefix. -/
theorem parseArrItems_wsPre (fuel : Nat) (pre cs : List Char)
    (h : ∀ c ∈ pre, isJsonWs c = true) :
    parseArrItems fuel (pre ++ cs) = parseArrItems fuel cs := by
  cases fuel with
  | zero => rfl
  | succ f =>
      unfold parseArrItems
      rw [skipJsonWs_append pre cs h, parseVal_wsPre f pre cs h]

/-- `parseArrRest` ignores a leading all-whitespace prefix. -/
theorem parseArrRest_wsPre (fuel : Nat) (pre cs : List Char)
    (h : ∀ c ∈ pre, isJsonWs c = true) :
    parseArrRest fuel (pre ++ cs) = parseArrRest fuel cs := by
  cases fuel with
  | zero => rfl
  | succ f =>
      unfold parseArrRest
      rw [skipJsonWs_append pre cs h]

/-- `parseObjItems` ignores a leading all-whitespace prefix. -/
theorem parseObjItems_wsPre (fuel : Nat) (pre cs : List Char)
    (h : ∀ c ∈ pre, isJsonWs c = true) :
    parseObjItems fuel (pre ++ cs) = parseObjItems fuel cs := by
  cases fuel with
  | zero => rfl
  | succ f =>
      unfold parseObjItems
      rw [skipJsonWs_append pre cs h]

/-- `parseObjRest` ignores a leading all-whitespace prefix. -/
theorem parseObjRest_wsPre (fuel : Nat) (pre cs : List Char)
    (h : ∀ c ∈ pre, isJsonWs c = true) :
    parseObjRest fuel (pre ++ cs) = parseObjRest fuel cs := by
  cases fuel with
  | zero => rfl
  | succ f =>
      unfold parseObjRest
      rw [skipJsonWs_append pre cs h]

/-- The empty array tail (newline, indent, closing bracket) round-trips. -/
theorem RTtail_nil : RTtail ([] : List Json) := by
  intro ind fuel rest hfuel
  have hlen : (renderArrTail ind ([] : List Json)).length = ind + 2 := by
    simp [renderArrTail, spacesChars]
  obtain ⟨f, rfl⟩ : ∃ f, fuel = f + 1 := ⟨fuel - 1, by omega⟩
  rw [show renderArrTail ind ([] : List Json) = '\n' :: spacesChars ind ++ [']'] from rfl]
  simp only [List.cons_append, List.append_assoc, List.nil_append]
  rw [show ('\n' :: (spacesChars ind ++ ']' :: rest)) =
        ('\n' :: spacesChars ind) ++ (']' :: rest) from by simp]
  rw [parseArrRest_wsPre (f + 1) _ _ (nlSpaces_ws ind)]
  rfl

/-- A non-empty array tail round-trips when its head value and the
remaining tail do. -/
theorem RTtail_cons (x : Json) (xs : List Json) (hx : RTv x) (ht : RTtail xs) :
    RTtail (x :: xs) := by
  intro ind fuel rest hfuel
  have hlen : (renderArrTail ind (x :: xs)).length =
      (renderChars (ind + 2) x).length + (renderArrTail ind xs).length + (ind + 4) := by
    rw [show renderArrTail ind (x :: xs) =
          ',' :: '\n' :: spacesChars (ind + 2) ++ renderChars (ind + 2) x ++
            renderArrTail ind xs from rfl]
    simp [spacesChars]
    omega
  obtain ⟨f, rfl⟩ : ∃ f, fuel = f + 1 := ⟨fuel - 1, by omega⟩
  rw [show renderArrTail ind (x :: xs) =
        ',' :: '\n' :: spacesChars (ind + 2) ++ renderChars (ind + 2) x ++
          renderArrTail ind xs from rfl]
  simp only [List.cons_append, List.append_assoc]
  rw [show ∀ X, parseArrRest (f + 1) (',' :: X) = (do
        let (v, r1) ← parseVal f X
        let (vs, r2) ← parseArrRest f r1
        pure (v :: vs, r2) : Option (List Json × List Char)) from fun X => rfl]
  rw [show ('\n' :: (spacesChars (ind + 2) ++
        (renderChars (ind + 2) x ++ (renderArrTail ind xs ++ rest)))) =
      '\n' :: (spacesChars (ind + 2) ++
        (renderChars (ind + 2) x ++ (renderArrTail ind xs ++ rest))) from rfl]
  rw [parseVal_nlsp f (ind + 2) _]
  rw [hx (ind + 2) f (renderArrTail ind xs ++ rest) (by omega)]
  simp [ht ind f rest (by omega)]

/-- The empty array round-trips. -/
theorem RTv_arr_nil : RTv (Json.arr []) := by
  intro ind fuel rest hfuel
  have hlen : (renderChars ind (Json.arr [])).length = 2 := rfl
  obtain ⟨f, rfl⟩ : ∃ f, fuel = f + 2 := ⟨fuel - 2, by omega⟩
  rw [show renderChars ind (Json.arr []) = ['[', ']'] from rfl]
  simp only [List.cons_append, List.nil_append]
  rw [show ∀ T, parseVal (f + 2) ('[' :: T) = parseArrItems (f + 1) T from fun T => rfl]
  rfl

/-- A non-empty array round-trips when its head (with a known
non-bracket leading character) and tail do. -/
theorem RTv_arr_cons (x : Json) (xs : List Json) (hx : RTv x) (hh : RThead x)
    (ht : RTtail xs) : RTv (Json.arr (x :: xs)) := by
  intro ind fuel rest hfuel
  have hlen : (renderChars ind (Json.arr (x :: xs))).length =
      (renderChars (ind + 2) x).length + (renderArrTail ind xs).length + (ind + 4) := by
    rw [render_arr_cons]
    simp [spacesChars]
    omega
  obtain ⟨f, rfl⟩ : ∃ f, fuel = f + 2 := ⟨fuel - 2, by omega⟩
  rw [render_arr_cons]
  simp only [List.cons_append, List.append_assoc]
  rw [show ∀ T, parseVal (f + 2) ('[' :: T) = parseArrItems (f + 1) T from fun T => rfl]
  rw [show ('\n' :: (spacesChars (ind + 2) ++
        (renderChars (ind + 2) x ++ (renderArrTail ind xs ++ rest)))) =
      ('\n' :: spacesChars (ind + 2)) ++
        (renderChars (ind + 2) x ++ (renderArrTail ind xs ++ rest)) from by simp]
  rw [parseArrItems_wsPre (f + 1) _ _ (nlSpaces_ws (ind + 2))]
  obtain ⟨c, t, hc1, hc2, hc3⟩ := hh (ind + 2)
  have hskip : skipJsonWs (renderChars (ind + 2) x ++ (renderArrTail ind xs ++ rest)) =
      renderChars (ind + 2) x ++ (renderArrTail ind xs ++ rest) := by
    rw [hc1]
    simp only [List.cons_append]
    exact skipJsonWs_cons_nonws c _ hc2
  unfold parseArrItems
  rw [hskip]
  split
  · rename_i rest2 heq
    rw [hc1] at heq
    simp only [List.cons_append] at heq
    injection heq with hcc _
    exact absurd hcc hc3
  · rw [hx (ind + 2) f (renderArrTail ind xs ++ rest) (by omega)]
    simp [ht ind f rest (by omega)]

/-- A rendered member (escaped key, colon, space, rendered value) parses
back to the key/value pair, after any whitespace prefix. -/
theorem parseMember_render (k : String) (v : Json) (hv : RTv v) (ind f : Nat)
    (pre : List Char) (hpre : ∀ c ∈ pre, isJsonWs c = true) (rest : List Char)
    (hfuel : 2 * (renderChars ind v).length ≤ f) :
    parseMember (f + 1)
        (pre ++ ('"' :: ((k.data.map escapeChar).flatten ++
          '"' :: (':' :: ' ' :: (renderChars ind v ++ rest))))) =
      some ((k, v), rest) := by
  unfold parseMember
  rw [skipJsonWs_append pre _ hpre]
  rw [skipJsonWs_cons_nonws '"' _ (by decide)]
  simp only [parseStringBody_escape]
  rw [skipJsonWs_cons_nonws ':' (' ' :: (renderChars ind v ++ rest)) (by decide)]
  show Option.map (fun p => (((⟨k.data⟩ : String), p.1), p.2))
      (parseVal f (' ' :: (renderChars ind v ++ rest))) = some ((k, v), rest)
  rw [show (' ' :: (renderChars ind v ++ rest)) =
        [' '] ++ (renderChars ind v ++ rest) from rfl]
  rw [parseVal_wsPre f [' '] _ (by intro c hc; simp at hc; subst hc; rfl)]
  rw [hv ind f rest hfuel]
  rfl

/-- `parseMember_render` with no whitespace prefix. -/
theorem parseMember_render0 (k : String) (v : Json) (hv : RTv v) (ind f : Nat)
    (rest : List Char) (hfuel : 2 * (renderChars ind v).length ≤ f) :
    parseMember (f + 1)
        ('"' :: ((k.data.map escapeChar).flatten ++
          '"' :: (':' :: ' ' :: (renderChars ind v ++ rest)))) =
      some ((k, v), rest) := by
  have h := parseMember_render k v hv ind f []
    (by intro c hc; exact absurd hc (List.not_mem_nil c)) rest hfuel
  simpa using h

/-- The empty object tail round-trips. -/
theorem RTmtail_nil : RTmtail ([] : List (String × Json)) := by
  intro ind fuel rest hfuel
  have hlen : (renderObjTail ind ([] : List (String × Json))).length = ind + 2 := by
    simp [renderObjTail, spacesChars]
  obtain ⟨f, rfl⟩ : ∃ f, fuel = f + 1 := ⟨fuel - 1, by omega⟩
  rw [show renderObjTail ind ([] : List (String × Json)) =
        '\n' :: spacesChars ind ++ [rbrace] from rfl]
  simp only [List.cons_append, List.append_assoc, List.nil_append]
  rw [show ('\n' :: (spacesChars ind ++ rbrace :: rest)) =
        ('\n' :: spacesChars ind) ++ (rbrace :: rest) from by simp]
  rw [parseObjRest_wsPre (f + 1) _ _ (nlSpaces_ws ind)]
  rfl

/-- A non-empty object tail round-trips when its head member's value and
the remaining tail do. -/
theorem RTmtail_cons (k : String) (v : Json) (ps : List (String × Json))
    (hv : RTv v) (hp : RTmtail ps) : RTmtail ((k, v) :: ps) := by
  intro ind fuel rest hfuel
  have hlen : (renderObjTail ind ((k, v) :: ps)).length =
      (escapeJsonString k).length + (renderChars (ind + 2) v).length +
        (renderObjTail ind ps).length + (ind + 6) := by
    rw [show renderObjTail ind ((k, v) :: ps) =
          ',' :: '\n' :: spacesChars (ind + 2) ++ escapeJsonString k ++
            ':' :: ' ' :: renderChars (ind + 2) v ++ renderObjTail ind ps from rfl]
    simp [spacesChars]
    omega
  obtain ⟨f, rfl⟩ : ∃ f, fuel = f + 2 := ⟨fuel - 2, by omega⟩
  rw [show renderObjTail ind ((k, v) :: ps) =
        ',' :: '\n' :: spacesChars (ind + 2) ++ escapeJsonString k ++
          ':' :: ' ' :: renderChars (ind + 2) v ++ renderObjTail ind ps from rfl]
  simp only [List.cons_append, List.append_assoc]
  rw [show ∀ X, parseObjRest (f + 2) (',' :: X) = (do
        let (kv, r1) ← parseMember (f + 1) X
        let (kvs, r2) ← parseObjRest (f + 1) r1
        pure (kv :: kvs, r2) : Option (List (String × Json) × List Char)) from
    fun X => rfl]
  rw [show ('\n' :: (spacesChars (ind + 2) ++ (escapeJsonString k ++
        (':' :: ' ' :: (renderChars (ind + 2) v ++ (renderObjTail ind ps ++ rest)))))) =
      ('\n' :: spacesChars (ind + 2)) ++ ('"' :: ((k.data.map escapeChar).flatten ++
        '"' :: (':' :: ' ' :: (renderChars (ind + 2) v ++ (renderObjTail ind ps ++ rest)))))
      from by simp [escapeJsonString]]
  rw [parseMember_render k v hv (ind + 2) f _ (nlSpaces_ws (ind + 2)) _ (by omega)]
  simp [hp ind (f + 1) rest (by omega)]

/-- A non-empty object round-trips when its first member's value and the
member tail do. -/
theorem RTv_obj_cons (k : String) (v : Json) (ps : List (String × Json))
    (hv : RTv v) (hp : RTmtail ps) : RTv (Json.obj ((k, v) :: ps)) := by
  intro ind fuel rest hfuel
  have hlen : (renderChars ind (Json.obj ((k, v) :: ps))).length =
      (escapeJsonString k).length + (renderChars (ind + 2) v).length +
        (renderObjTail ind ps).length + (ind + 6) := by
    rw [render_obj_cons]
    simp [spacesChars]
    omega
  have hklen : 2 ≤ (escapeJsonString k).length := by
    simp [escapeJsonString]
  obtain ⟨g, rfl⟩ : ∃ g, fuel = g + 3 := ⟨fuel - 3, by omega⟩
  rw [render_obj_cons]
  simp only [List.cons_append, List.append_assoc]
  rw [show ∀ T, parseVal (g + 3) (lbrace :: T) = parseObjItems (g + 2) T from fun T => rfl]
  rw [show ('\n' :: (spacesChars (ind + 2) ++ (escapeJsonString k ++
        (':' :: ' ' :: (renderChars (ind + 2) v ++ (renderObjTail ind ps ++ rest)))))) =
      ('\n' :: spacesChars (ind + 2)) ++ (escapeJsonString k ++
        ':' :: ' ' :: (renderChars (ind + 2) v ++ (renderObjTail ind ps ++ rest))) from by
    simp]
  rw [parseObjItems_wsPre (g + 2) _ _ (nlSpaces_ws (ind + 2))]
  rw [show escapeJsonString k ++
        ':' :: ' ' :: (renderChars (ind + 2) v ++ (renderObjTail ind ps ++ rest)) =
      '"' :: ((k.data.map escapeChar).flatten ++
        '"' :: (':' :: ' ' :: (renderChars (ind + 2) v ++ (renderObjTail ind ps ++ rest))))
      from by simp [escapeJsonString]]
  rw [show ∀ X, parseObjItems (g + 2) ('"' :: X) = (do
        let (kv, r1) ← parseMember (g + 1) ('"' :: X)
        let (kvs, r2) ← parseObjRest (g + 1) r1
        pure (Json.obj (kv :: kvs), r2) : Option (Json × List Char)) from fun X => rfl]
  rw [parseMember_render0 k v hv (ind + 2) g _ (by omega)]
  simp [hp ind (g + 1) rest (by omega)]

/-- Lists of string values give round-tripping array tails. -/
theorem RTtail_strs (l : List String) : RTtail (l.map Json.str) := by
  induction l with
  | nil => exact RTtail_nil
  | cons s l ih => exact RTtail_cons (Json.str s) (l.map Json.str) (RTv_str s) ih

/-- Arrays of string values round-trip. -/
theorem RTv_strArr (l : List String) : RTv (Json.arr (l.map Json.str)) := by
  cases l with
  | nil => exact RTv_arr_nil
  | cons s l =>
      exact RTv_arr_cons (Json.str s) (l.map Json.str) (RTv_str s) (RThead_str s)
        (RTtail_strs l)

/-- The JSON image of one ticket round-trips. -/
theorem RTv_ticket (t : TicketSummary) : RTv (ticketToJson t) :=
  RTv_obj_cons "id" (Json.str t.id) _ (RTv_str t.id)
    (RTmtail_cons "ticketNumber" (Json.str t.ticketNumber) _ (RTv_str t.ticketNumber)
      (RTmtail_cons "title" (Json.str t.title) _ (RTv_str t.title)
        (RTmtail_cons "status" (Json.str t.status) _ (RTv_str t.status)
          (RTmtail_cons "priority" (Json.str t.priority) _ (RTv_str t.priority)
            (RTmtail_cons "lastUpdated" (Json.str t.lastUpdated) _ (RTv_str t.lastUpdated)
              (RTmtail_cons "url" (Json.str t.url) _ (RTv_str t.url)
                (RTmtail_cons "githubLinks" (Json.arr (t.githubLinks.map Json.str)) []
                  (RTv_strArr t.githubLinks) RTmtail_nil)))))))

/-- Lists of ticket images give round-tripping array tails. -/
theorem RTtail_tickets (ts : List TicketSummary) : RTtail (ts.map ticketToJson) := by
  induction ts with
  | nil => exact RTtail_nil
  | cons t ts ih => exact RTtail_cons (ticketToJson t) (ts.map ticketToJson) (RTv_ticket t) ih

/-- The JSON image of a whole ticket list round-trips. -/
theorem RTv_tickets (ts : List TicketSummary) : RTv (ticketsToJson ts) := by
  cases ts with
  | nil => exact RTv_arr_nil
  | cons t ts =>
      exact RTv_arr_cons (ticketToJson t) (ts.map ticketToJson) (RTv_ticket t)
        (RThead_obj_cons "id" (Json.str t.id) _) (RTtail_tickets ts)

/-- Parsing the saved snapshot text recovers the saved JSON value. -/
theorem jsonParse_save (ts : List TicketSummary) :
    jsonParse (stringifyPretty (ticketsToJson ts) ++ "\n") = some (ticketsToJson ts) := by
  unfold jsonParse
  rw [show (stringifyPretty (ticketsToJson ts) ++ "\n").data =
        renderChars 0 (ticketsToJson ts) ++ ['\n'] from rfl]
  rw [RTv_tickets ts 0 _ ['\n'] (by
    simp [List.length_append]
    omega)]
  rfl

/-- Reading back a mapped string array succeeds elementwise. -/
theorem mapM_decodeStr (l : List String) :
    optMapM (fun x =>
      match x with
      | Json.str s => some s
      | _ => none) (l.map Json.str) = some l := by
  induction l with
  | nil => rfl
  | cons s l ih => simp [optMapM, ih]

/-- Folding JS object assignment over fields with pairwise-distinct keys
changes nothing. -/
theorem jsObjAssign_go (fs : List (String × Json)) :
    ∀ acc : List (String × Json),
      (∀ p ∈ fs, acc.any (fun q => q.1 == p.1) = false) →
      ((fs.map Prod.fst).Nodup) →
      fs.foldl
        (fun acc kv =>
          if acc.any (fun p => p.1 == kv.1) then
            acc.map (fun p => if p.1 == kv.1 then (p.1, kv.2) else p)
          else acc ++ [kv])
        acc = acc ++ fs := by
  induction fs with
  | nil => intro acc _ _; simp
  | cons kv fs ih =>
      intro acc hacc hnd
      have h1 : acc.any (fun q => q.1 == kv.1) = false :=
        hacc kv (List.mem_cons_self kv fs)
      simp only [List.foldl_cons, h1, Bool.false_eq_true, if_false]
      have hnd2 := hnd
      simp only [List.map_cons, List.nodup_cons] at hnd2
      have hstep : ∀ p ∈ fs, (acc ++ [kv]).any (fun q => q.1 == p.1) = false := by
        intro p hp
        simp only [List.any_append, List.any_cons, List.any_nil, Bool.or_eq_false_iff]
        refine ⟨hacc p (List.mem_cons_of_mem kv hp), ?_, trivial⟩
        have : kv.1 ≠ p.1 := by
          intro hcontra
          exact hnd2.1 (hcontra ▸ List.mem_map_of_mem Prod.fst hp)
        simpa using this
      rw [ih (acc ++ [kv]) hstep hnd2.2]
      simp

/-- The entries of a ticket's JSON image are exactly its eight fields. -/
theorem rowEntries_ticket (t : TicketSummary) :
    rowEntries (ticketToJson t) =
      [("id", Json.str t.id),
       ("ticketNumber", Json.str t.ticketNumber),
       ("title", Json.str t.title),
       ("status", Json.str t.status),
       ("priority", Json.str t.priority),
       ("lastUpdated", Json.str t.lastUpdated),
       ("url", Json.str t.url),
       ("githubLinks", Json.arr (t.githubLinks.map Json.str))] := by
  show jsObjAssign _ = _
  unfold jsObjAssign
  rw [jsObjAssign_go _ [] (by intro p _; rfl) (by simp)]
  rfl

/-- Decoding the JSON image of a ticket recovers the ticket. -/
theorem decodeTicket_encode (t : TicketSummary) : decodeTicket (ticketToJson t) = some t := by
  obtain ⟨id, tn, title, status, prio, lu, url, gl⟩ := t
  unfold decodeTicket
  simp only [jsGet]
  rw [rowEntries_ticket]
  simp [List.lookup, mapM_decodeStr]

/-- Decoding a mapped ticket list succeeds elementwise. -/
theorem mapM_decodeTicket (ts : List TicketSummary) :
    optMapM decodeTicket (ts.map ticketToJson) = some ts := by
  induction ts with
  | nil => rfl
  | cons t ts ih => simp [optMapM, decodeTicket_encode, ih]

/-- Decoding the JSON image of a ticket list recovers the list. -/
theorem decodeTicketList_encode (ts : List TicketSummary) :
    decodeTicketList (ticketsToJson ts) = some ts := by
  simp [decodeTicketList, ticketsToJson, mapM_decodeTicket]

/-- **C7.**  Saving any record list (including the empty one) and
loading it back returns a value deep-equal to the saved records: the
loaded JSON value is exactly the records' JSON image, and reading it
structurally recovers the records themselves.  Loading from a state
where no snapshot was ever saved returns the empty list without
throwing. -/
theorem C7_saveLoadRoundTrip (ts : List TicketSummary) (prev : Option String) :
    loadSyncedTickets (saveSyncedTickets ts prev) = ticketsToJson ts ∧
    decodeTicketList (loadSyncedTickets (saveSyncedTickets ts prev)) = some ts ∧
    loadSyncedTickets none = Json.arr [] := by
  have h1 : loadSyncedTickets (saveSyncedTickets ts prev) = ticketsToJson ts := by
    simp [loadSyncedTickets, saveSyncedTickets, jsonParse_save]
  exact ⟨h1, by rw [h1]; exact decodeTicketList_encode ts, rfl⟩

/-- Witness for C8: stdout and stderr chunks arrive, the timer fires,
and a later `close` with exit code 0 cannot resurrect the promise. -/
theorem C8_witness :
    (runClaudeTrace 5000 ([RunEvent.stdoutData "partial", RunEvent.stderrData "oops"] ++
        RunEvent.timerFire :: [RunEvent.closeEv (some 0)])).settled =
      some (Except.error (timeoutFailure 5000
        (traceStderr [RunEvent.stdoutData "partial", RunEvent.stderrData "oops"]))) ∧
    (runClaudeTrace 5000 ([RunEvent.stdoutData "partial", RunEvent.stderrData "oops"] ++
        RunEvent.timerFire :: [RunEvent.closeEv (some 0)])).killed = true :=
  C8_timeoutSettles 5000 _ _ (by
    intro e he
    rcases List.mem_cons.mp he with h | h
    · subst h; rfl
    · rcases List.mem_cons.mp h with h | h
      · subst h; rfl
      · exact absurd h (List.not_mem_nil e))

end Tix
